import Mathlib

set_option maxRecDepth 40000
set_option maxHeartbeats 2000000

/-!
Verification development for the G-code SDF reconstruction engine
(`src/experimental/src/gcode_sdf_builder.cpp`, `gcode_sparse_grid.cpp`,
`src/experimental/include/gcode_sdf_builder.h`).

Shallow embedding conventions:
* C++ `float` arithmetic is modelled as exact rational arithmetic (`ℚ`);
  `std::numeric_limits<float>::max()` is the rational value of `FLT_MAX`.
* `float` square roots (`glm::length`, `glm::distance`, `glm::normalize`)
  are modelled by a fixed-precision rational square root `sqrtQ`
  (floor square root at 10^-6 resolution), a computable stand-in for the
  correctly-rounded binary square root.
* `std::vector<float>` grid storage is modelled as a total map from flat
  indices to values; `data_.resize(resolution³)` in the constructor makes
  the vector size constantly `resolution³`, so `memory_usage()` is modelled
  as `resolution³ * 4`.
* Wall-clock statistics fields (`build_time_seconds`, `sdf_time_seconds`,
  `marching_cubes_seconds`) are real-time measurements and are omitted
  from the `BuildStats` model.
-/

namespace Gcode

/-- Rational value of `std::numeric_limits<float>::max()`, i.e.
`(2^24 - 1) · 2^104`, written as a numeral so it evaluates cheaply. -/
def fltMax : ℚ := 340282346638528859811704183484516925440

/-- Model of `std::round` followed by `static_cast<int>`: round half away from zero. -/
def roundAway (q : ℚ) : ℤ := if q < 0 then -((-q + 1/2).floor) else (q + 1/2).floor

/-- Model of `std::clamp` / `glm` componentwise clamping on integers. -/
def clampZ (v lo hi : ℤ) : ℤ := max lo (min hi v)

/-- Model of `std::clamp` on floats. -/
def clampQ (v lo hi : ℚ) : ℚ := max lo (min hi v)

/-- One digit step of the binary floor square root. -/
def isqrtStep (n r k : ℕ) : ℕ := if (r + 2 ^ k) ^ 2 ≤ n then r + 2 ^ k else r

/-- Fuelled binary floor square root: processes bits `k-1, …, 0`. -/
def isqrtGo (n : ℕ) : ℕ → ℕ → ℕ
  | 0, r => r
  | k + 1, r => isqrtGo n k (isqrtStep n r k)

/-- Floor square root of a natural number (exact for `n < 2^128`). -/
def isqrt (n : ℕ) : ℕ := isqrtGo n 64 0

/-- Fixed-precision rational square root modelling `float` `sqrt`:
floor square root at 10^-6 resolution, 0 on nonpositive input. -/
def sqrtQ (q : ℚ) : ℚ := if q ≤ 0 then 0 else (isqrt (q * 10 ^ 12).floor.toNat : ℚ) / 10 ^ 6

/-- Model of `glm::vec3` with exact rational components. -/
structure Vec3 where
  x : ℚ
  y : ℚ
  z : ℚ
deriving DecidableEq, Repr

/-- Model of `glm::ivec3`. -/
structure IVec3 where
  x : ℤ
  y : ℤ
  z : ℤ
deriving DecidableEq, Repr

/-- Componentwise vector addition. -/
def Vec3.add (a b : Vec3) : Vec3 := ⟨a.x + b.x, a.y + b.y, a.z + b.z⟩

/-- Componentwise vector subtraction. -/
def Vec3.sub (a b : Vec3) : Vec3 := ⟨a.x - b.x, a.y - b.y, a.z - b.z⟩

/-- Scalar multiplication of a vector. -/
def Vec3.smul (t : ℚ) (a : Vec3) : Vec3 := ⟨t * a.x, t * a.y, t * a.z⟩

/-- Componentwise division of a vector by a scalar (`glm` `v / s`). -/
def Vec3.divs (a : Vec3) (s : ℚ) : Vec3 := ⟨a.x / s, a.y / s, a.z / s⟩

/-- Componentwise minimum (`glm::min`). -/
def Vec3.cmin (a b : Vec3) : Vec3 := ⟨min a.x b.x, min a.y b.y, min a.z b.z⟩

/-- Componentwise maximum (`glm::max`). -/
def Vec3.cmax (a b : Vec3) : Vec3 := ⟨max a.x b.x, max a.y b.y, max a.z b.z⟩

/-- Dot product (`glm::dot`). -/
def Vec3.dot (a b : Vec3) : ℚ := a.x * b.x + a.y * b.y + a.z * b.z

/-- Euclidean length (`glm::length`), via the rational square-root model. -/
def Vec3.len (a : Vec3) : ℚ := sqrtQ (a.dot a)

/-- Euclidean distance (`glm::distance`). -/
def Vec3.dist (a b : Vec3) : ℚ := (a.sub b).len

/-- Cross product (`glm::cross`). -/
def Vec3.cross (a b : Vec3) : Vec3 :=
  ⟨a.y * b.z - a.z * b.y, a.z * b.x - a.x * b.z, a.x * b.y - a.y * b.x⟩

/-- Normalization (`glm::normalize`): `v / length(v)` (rational-division model,
yielding the zero vector on zero length where C++ would produce NaN). -/
def Vec3.normalize (a : Vec3) : Vec3 := a.divs a.len

/-- Cast an integer vector to a float vector (`glm::vec3(ivec3)`). -/
def IVec3.toVec3 (v : IVec3) : Vec3 := ⟨(v.x : ℚ), (v.y : ℚ), (v.z : ℚ)⟩

/-- Componentwise integer maximum (`glm::max` on `ivec3`). -/
def IVec3.cmax (a b : IVec3) : IVec3 := ⟨max a.x b.x, max a.y b.y, max a.z b.z⟩

/-- Componentwise integer minimum (`glm::min` on `ivec3`). -/
def IVec3.cmin (a b : IVec3) : IVec3 := ⟨min a.x b.x, min a.y b.y, min a.z b.z⟩

/-- Modelled from the spec: axis-aligned bounding box with `min`/`max` corners
(`AABB` lives in `gcode_parser.h`, which is not under `src/`; the spec fixes
its fields and `size()`). -/
structure AABB where
  bmin : Vec3
  bmax : Vec3
deriving DecidableEq, Repr

/-- Box extent `size() = max - min` componentwise. -/
def AABB.size (b : AABB) : Vec3 := b.bmax.sub b.bmin

/-- Modelled from the spec: one toolpath segment as exposed by the toolpath
parser (`gcode_parser.h` is not under `src/`): `start`/`end` endpoints, the
material-depositing flag `is_extrusion`, and the free-text `feature_type`
label (modelled as a character list). The C++ field `end` is named `stop`
here because `end` is reserved in Lean. -/
structure ToolpathSegment where
  start : Vec3
  stop : Vec3
  is_extrusion : Bool
  feature_type : List Char
deriving DecidableEq, Repr

/-- Modelled from the spec: one layer of the parsed toolpath, an ordered list
of segments. -/
structure GCodeLayer where
  segments : List ToolpathSegment
deriving DecidableEq, Repr

/-- Modelled from the spec: the parsed toolpath file interface consumed by the
builder — ordered layers plus a precomputed global bounding box. -/
structure ParsedGCodeFile where
  layers : List GCodeLayer
  global_bounding_box : AABB
deriving DecidableEq, Repr

/-- Dense 3D voxel grid (`DenseVoxelGrid` in `gcode_sdf_builder.h`).
`data` models the flat `std::vector<float> data_` as a total map from flat
indices to values; the constructor's `resize(resolution³)` keeps the vector
size constantly `resolution³`. -/
structure DenseVoxelGrid where
  resolution : ℤ
  bounds : AABB
  voxel_size : ℚ
  data : ℕ → ℚ

/-- Flat row-major index `z·res² + y·res + x` (`DenseVoxelGrid::index`);
only evaluated on in-bounds (hence nonnegative) coordinates. -/
def DenseVoxelGrid.index (g : DenseVoxelGrid) (x y z : ℤ) : ℕ :=
  z.toNat * g.resolution.toNat * g.resolution.toNat + y.toNat * g.resolution.toNat + x.toNat

/-- Bounds check `[0,resolution)` on each axis (`DenseVoxelGrid::in_bounds`). -/
def DenseVoxelGrid.in_bounds (g : DenseVoxelGrid) (x y z : ℤ) : Prop :=
  0 ≤ x ∧ x < g.resolution ∧ 0 ≤ y ∧ y < g.resolution ∧ 0 ≤ z ∧ z < g.resolution

instance (g : DenseVoxelGrid) (x y z : ℤ) : Decidable (g.in_bounds x y z) := by
  unfold DenseVoxelGrid.in_bounds; infer_instance

/-- Constructor `DenseVoxelGrid(resolution, bounds)`: voxel size is the largest
bounds dimension over `resolution - 1`, and every cell is initialized to the
"far outside" sentinel `FLT_MAX`. -/
def mkDenseVoxelGrid (resolution : ℤ) (bounds : AABB) : DenseVoxelGrid :=
  let size := bounds.size
  let maxDim := max (max size.x size.y) size.z
  { resolution := resolution
    bounds := bounds
    voxel_size := maxDim / ((resolution : ℚ) - 1)
    data := fun _ => fltMax }

/-- `DenseVoxelGrid::get`: stored value in bounds, `FLT_MAX` sentinel outside. -/
def DenseVoxelGrid.get (g : DenseVoxelGrid) (x y z : ℤ) : ℚ :=
  if g.in_bounds x y z then g.data (g.index x y z) else fltMax

/-- `DenseVoxelGrid::set`: update the cell in bounds, no-op outside. -/
def DenseVoxelGrid.set (g : DenseVoxelGrid) (x y z : ℤ) (value : ℚ) : DenseVoxelGrid :=
  if g.in_bounds x y z then
    { g with data := fun i => if i = g.index x y z then value else g.data i }
  else g

/-- `DenseVoxelGrid::world_to_voxel`: `(pos - bounds.min) / voxel_size`,
rounded componentwise. -/
def DenseVoxelGrid.world_to_voxel (g : DenseVoxelGrid) (pos : Vec3) : IVec3 :=
  let v := (pos.sub g.bounds.bmin).divs g.voxel_size
  ⟨roundAway v.x, roundAway v.y, roundAway v.z⟩

/-- `DenseVoxelGrid::voxel_to_world`: `bounds.min + voxel * voxel_size`
(cell lower corner, no half-voxel offset). -/
def DenseVoxelGrid.voxel_to_world (g : DenseVoxelGrid) (voxel : IVec3) : Vec3 :=
  g.bounds.bmin.add (Vec3.smul g.voxel_size voxel.toVec3)

/-- `DenseVoxelGrid::fill`: reset every cell. -/
def DenseVoxelGrid.fill (g : DenseVoxelGrid) (value : ℚ) : DenseVoxelGrid :=
  { g with data := fun _ => value }

/-- `DenseVoxelGrid::memory_usage`: `data_.size() * sizeof(float)`, and the
vector size is constantly `resolution³`. -/
def DenseVoxelGrid.memory_usage (g : DenseVoxelGrid) : ℕ :=
  g.resolution.toNat * g.resolution.toNat * g.resolution.toNat * 4

/-- `SDFBuilder::smooth_min`: polynomial smooth minimum
`min(a,b) - h²·k/4` with `h = max(k - |a-b|, 0) / k`. -/
def smooth_min (a b k : ℚ) : ℚ :=
  let h := max (k - |a - b|) 0 / k
  min a b - h * h * k * (1/4)

/-- `SDFBuilder::capsule_sdf`: signed distance from `point` to the capsule
around segment `start`–`stop` with the given radius; degenerate segments
degrade to a sphere distance. -/
def capsule_sdf (point start stop : Vec3) (radius : ℚ) : ℚ :=
  let segment := stop.sub start
  let segment_length := segment.len
  if segment_length < 1/10000 then
    point.dist start - radius
  else
    let to_point := point.sub start
    let t := to_point.dot segment / (segment_length * segment_length)
    let t := clampQ t 0 1
    let closest := start.add (Vec3.smul t segment)
    point.dist closest - radius

/-- Integer coordinate box `[lo, hi]` in the rasterizer's z-outer, y-middle,
x-inner iteration order. -/
def boxList (lo hi : IVec3) : List IVec3 :=
  (List.range (hi.z - lo.z + 1).toNat).flatMap fun (dz : ℕ) =>
    (List.range (hi.y - lo.y + 1).toNat).flatMap fun (dy : ℕ) =>
      (List.range (hi.x - lo.x + 1).toNat).map fun (dx : ℕ) =>
        ⟨lo.x + (dx : ℤ), lo.y + (dy : ℤ), lo.z + (dz : ℤ)⟩

/-- Influence-box lower corner for a segment: `min(start,end) - influence`,
converted to voxel space and clamped below by 0 (`generate_sdf`). -/
def segVoxelMin (g : DenseVoxelGrid) (s : ToolpathSegment) (influence : ℚ) : IVec3 :=
  let seg_min := (s.start.cmin s.stop).sub ⟨influence, influence, influence⟩
  (g.world_to_voxel seg_min).cmax ⟨0, 0, 0⟩

/-- Influence-box upper corner for a segment: `max(start,end) + influence`,
converted to voxel space and clamped above by `resolution - 1` (`generate_sdf`). -/
def segVoxelMax (g : DenseVoxelGrid) (s : ToolpathSegment) (influence : ℚ) : IVec3 :=
  let seg_max := (s.start.cmax s.stop).add ⟨influence, influence, influence⟩
  (g.world_to_voxel seg_max).cmin ⟨g.resolution - 1, g.resolution - 1, g.resolution - 1⟩

/-- Rasterization of one surviving segment (`generate_sdf` inner loops):
every voxel of the influence box is blended with the capsule distance via
`smooth_min`. -/
def rasterizeSegment (g : DenseVoxelGrid) (s : ToolpathSegment)
    (segment_radius smoothing_radius : ℚ) : DenseVoxelGrid :=
  let influence := segment_radius + smoothing_radius + g.voxel_size
  (boxList (segVoxelMin g s influence) (segVoxelMax g s influence)).foldl
    (fun gr p =>
      let voxel_center := gr.voxel_to_world p
      let dist := capsule_sdf voxel_center s.start s.stop segment_radius
      let current := gr.get p.x p.y p.z
      gr.set p.x p.y p.z (smooth_min current dist smoothing_radius))
    g

/-- Prefix match of a pattern against a text (`std::string::find` helper). -/
def leadMatch : List Char → List Char → Bool
  | [], _ => true
  | _ :: _, [] => false
  | p :: ps, t :: ts => p == t && leadMatch ps ts

/-- Substring containment, modelling `text.find(pat) != std::string::npos`. -/
def hasSub (pat : List Char) : List Char → Bool
  | [] => leadMatch pat []
  | t :: ts => leadMatch pat (t :: ts) || hasSub pat ts

/-- The shell/perimeter feature test from `generate_sdf`: the label contains
one of the ten exact substrings `wall`, `Wall`, `perimeter`, `Perimeter`,
`surface`, `Surface`, `skin`, `Skin`, `bridge`, `Bridge`. -/
def isShellFeature (ft : List Char) : Bool :=
  hasSub ['w', 'a', 'l', 'l'] ft ||
  hasSub ['W', 'a', 'l', 'l'] ft ||
  hasSub ['p', 'e', 'r', 'i', 'm', 'e', 't', 'e', 'r'] ft ||
  hasSub ['P', 'e', 'r', 'i', 'm', 'e', 't', 'e', 'r'] ft ||
  hasSub ['s', 'u', 'r', 'f', 'a', 'c', 'e'] ft ||
  hasSub ['S', 'u', 'r', 'f', 'a', 'c', 'e'] ft ||
  hasSub ['s', 'k', 'i', 'n'] ft ||
  hasSub ['S', 'k', 'i', 'n'] ft ||
  hasSub ['b', 'r', 'i', 'd', 'g', 'e'] ft ||
  hasSub ['B', 'r', 'i', 'd', 'g', 'e'] ft

/-- A segment reaches the rasterization code of `generate_sdf` iff it extrudes
and its label is empty or passes the shell-feature test. -/
def segmentContributes (s : ToolpathSegment) : Bool :=
  s.is_extrusion && (s.feature_type.isEmpty || isShellFeature s.feature_type)

/-- Result of `SDFBuilder::generate_sdf`: the mutated grid plus the
`segments_processed` / `segments_filtered` counters the function computes
(and logs; the per-label debug maps, used only for logging, are omitted). -/
structure GenerateResult where
  grid : DenseVoxelGrid
  processed : ℕ
  filtered : ℕ

/-- One iteration of the `generate_sdf` segment loop: skip travel moves,
filter non-shell labelled segments (counting them), rasterize the rest. -/
def generateStep (segment_radius smoothing_radius : ℚ) (r : GenerateResult)
    (segment : ToolpathSegment) : GenerateResult :=
  if !segment.is_extrusion then r
  else if !segment.feature_type.isEmpty && !isShellFeature segment.feature_type then
    { r with filtered := r.filtered + 1 }
  else
    { r with grid := rasterizeSegment r.grid segment segment_radius smoothing_radius
             processed := r.processed + 1 }

/-- `SDFBuilder::generate_sdf`: fold the segment loop over the input list. -/
def generate_sdf (g : DenseVoxelGrid) (segments : List ToolpathSegment)
    (segment_radius smoothing_radius : ℚ) : GenerateResult :=
  segments.foldl (generateStep segment_radius smoothing_radius)
    { grid := g, processed := 0, filtered := 0 }

/-- `GridType` storage backend selector. -/
inductive GridType where
  | Dense
  | Sparse
deriving DecidableEq, Repr

/-- `SDFOptions` from `gcode_sdf_builder.h`. -/
structure SDFOptions where
  grid_resolution : ℤ := 256
  smoothing_radius : ℚ := 1/2
  use_smooth_minimum : Bool := true
  segment_radius_mm : ℚ := 21/100
  iso_value : ℚ := 0
  grid_type : GridType := GridType.Dense
  max_z_height : ℚ := fltMax
deriving DecidableEq, Repr

/-- `SDFOptions::validate`: clamp resolution to `[64,1024]`, smoothing radius
to `[0.1,2.0]`, segment radius to `[0.05,1.0]`. -/
def SDFOptions.validate (o : SDFOptions) : SDFOptions :=
  { o with
    grid_resolution := max 64 (min 1024 o.grid_resolution)
    smoothing_radius := max (1/10) (min 2 o.smoothing_radius)
    segment_radius_mm := max (1/20) (min 1 o.segment_radius_mm) }

/-- Triangle mesh output (`TriangleMesh` in `gcode_sdf_builder.h`). -/
structure TriangleMesh where
  vertices : List Vec3
  normals : List Vec3
  indices : List ℕ
deriving DecidableEq, Repr

/-- `TriangleMesh::memory_usage`: `sizeof(glm::vec3) = 12`, `sizeof(uint32_t) = 4`. -/
def TriangleMesh.memory_usage (m : TriangleMesh) : ℕ :=
  m.vertices.length * 12 + m.normals.length * 12 + m.indices.length * 4

/-- `TriangleMesh::triangle_count`: `indices.size() / 3`. -/
def TriangleMesh.triangle_count (m : TriangleMesh) : ℕ := m.indices.length / 3

/-- Linear interpolation `glm::mix(a, b, t) = a·(1-t) + b·t`, componentwise. -/
def Vec3.mix (a b : Vec3) (t : ℚ) : Vec3 :=
  ⟨a.x * (1 - t) + b.x * t, a.y * (1 - t) + b.y * t, a.z * (1 - t) + b.z * t⟩

/-- The 8 cube corner offsets of `extract_surface` (Paul Bourke convention). -/
def cornerOffsets : Fin 8 → IVec3
  | 0 => ⟨0, 0, 0⟩
  | 1 => ⟨1, 0, 0⟩
  | 2 => ⟨1, 1, 0⟩
  | 3 => ⟨0, 1, 0⟩
  | 4 => ⟨0, 0, 1⟩
  | 5 => ⟨1, 0, 1⟩
  | 6 => ⟨1, 1, 1⟩
  | 7 => ⟨0, 1, 1⟩

/-- The 12 cube edges of `extract_surface`: which two corners each edge connects. -/
def edgeConnections : Fin 12 → Fin 8 × Fin 8
  | 0 => (0, 1)
  | 1 => (1, 2)
  | 2 => (2, 3)
  | 3 => (3, 0)
  | 4 => (4, 5)
  | 5 => (5, 6)
  | 6 => (6, 7)
  | 7 => (7, 4)
  | 8 => (0, 4)
  | 9 => (1, 5)
  | 10 => (2, 6)
  | 11 => (3, 7)

/-- Modelled from the spec: `marching_cubes_tables.h` is not under `src/`.
The standard 256-entry edge table is characterized by the spec's description:
an edge is crossed exactly when its two corners lie on opposite sides of the
iso-surface, i.e. when the cube-index bits of its two corners differ. -/
def edgeTable (idx : ℕ) : ℕ :=
  (List.finRange 12).foldl
    (fun acc e =>
      let c := edgeConnections e
      if idx.testBit c.1.val != idx.testBit c.2.val then acc ||| (1 <<< e.val) else acc)
    0

/-- The crossed-edge list of a cube configuration, in edge order. -/
def crossedEdges (idx : ℕ) : List (Fin 12) :=
  (List.finRange 12).filter fun e => (edgeTable idx).testBit e.val

/-- Fan triangulation helper: joins `e0` to each successive pair of the list. -/
def fanFrom (e0 : Fin 12) : List (Fin 12) → List (Fin 12)
  | a :: b :: rest => e0 :: a :: b :: fanFrom e0 (b :: rest)
  | _ => []

/-- Modelled from the spec: `marching_cubes_tables.h` is not under `src/`.
The spec fixes only that the 256-entry triangulation table joins the crossed
edges of each configuration into triangles; the concrete standard entries are
opaque constant data none of the claims depend on, modelled here as a fan over
the crossed edges (rows reference crossed edges only, in groups of three,
and configurations 0 and 255 produce no triangles). -/
def triangleTable (idx : ℕ) : List (Fin 12) :=
  match crossedEdges idx with
  | e0 :: rest => fanFrom e0 rest
  | [] => []

/-- Wrap of `static_cast<uint64_t>` applied to a C++ `int`. -/
def wrap64 (i : ℤ) : ℕ := (i % 2 ^ 64).toNat

/-- `make_edge_key` from `extract_surface`: canonical key from the two global
corner coordinates of an edge — min corner plus axis direction — independent
of the owning cube. -/
def make_edge_key (c0 c1 : IVec3) : ℕ :=
  let min_c := c0.cmin c1
  let max_c := c0.cmax c1
  let axis : ℕ := if max_c.x ≠ min_c.x then 0 else if max_c.y ≠ min_c.y then 1 else 2
  (wrap64 min_c.x <<< 44 ||| wrap64 min_c.y <<< 30 ||| wrap64 min_c.z <<< 16 |||
    axis <<< 14) % 2 ^ 64

/-- Mutable state of the `extract_surface` cube loop: mesh arrays under
construction plus the vertex-welding cache (`unordered_map` modelled as an
association list from keys to vertex indices). -/
structure MCState where
  vertices : List Vec3
  normals : List Vec3
  indices : List ℕ
  cache : List (ℕ × ℕ)

/-- Empty initial extraction state. -/
def MCState.init : MCState := ⟨[], [], [], []⟩

/-- Componentwise sum of cube coordinates and a corner offset. -/
def IVec3.add (a b : IVec3) : IVec3 := ⟨a.x + b.x, a.y + b.y, a.z + b.z⟩

/-- The cube-configuration index of `extract_surface`: bit `i` is set exactly
when corner `i`'s value is strictly below the iso-value. -/
def cubeIndexOf (vals : Fin 8 → ℚ) (iso : ℚ) : ℕ :=
  (List.finRange 8).foldl (fun acc i => if vals i < iso then acc ||| (1 <<< i.val) else acc) 0

/-- One crossed-edge step of the per-cube edge loop: reuse the cached vertex
for the edge's canonical key, or interpolate and emit a new vertex. -/
def edgeStep (g : DenseVoxelGrid) (iso : ℚ) (cube : IVec3) (vals : Fin 8 → ℚ)
    (acc : MCState × (Fin 12 → ℕ)) (e : Fin 12) : MCState × (Fin 12 → ℕ) :=
  let s := acc.1
  let ev := acc.2
  let c := edgeConnections e
  let corner0 := cube.add (cornerOffsets c.1)
  let corner1 := cube.add (cornerOffsets c.2)
  let key := make_edge_key corner0 corner1
  match s.cache.lookup key with
  | some vi => (s, fun e' => if e' = e then vi else ev e')
  | none =>
      let v0 := vals c.1
      let v1 := vals c.2
      let t := clampQ ((iso - v0) / (v1 - v0 + 1/10000)) 0 1
      let pos := (g.voxel_to_world corner0).mix (g.voxel_to_world corner1) t
      let vi := s.vertices.length
      ({ s with
          vertices := s.vertices ++ [pos]
          normals := s.normals ++ [⟨0, 0, 0⟩]
          cache := (key, vi) :: s.cache },
       fun e' => if e' = e then vi else ev e')

/-- Group a triangulation row into index triples (the C++ loop reads entries
three at a time until the `-1` terminator). -/
def triChunks : List (Fin 12) → List (Fin 12 × Fin 12 × Fin 12)
  | a :: b :: c :: rest => (a, b, c) :: triChunks rest
  | _ => []

/-- The 8 corner samples of a cube (`corner_values` in `extract_surface`). -/
def cubeVals (g : DenseVoxelGrid) (cube : IVec3) : Fin 8 → ℚ := fun i =>
  let c := cube.add (cornerOffsets i)
  g.get c.x c.y c.z

/-- The crossed-edge loop of one cube: visit the 12 edges, generating or
reusing a welded vertex on each crossed edge. -/
def edgeLoop (g : DenseVoxelGrid) (iso : ℚ) (cube : IVec3) (s : MCState) :
    MCState × (Fin 12 → ℕ) :=
  (List.finRange 12).foldl
    (fun acc e =>
      if (edgeTable (cubeIndexOf (cubeVals g cube) iso)).testBit e.val then
        edgeStep g iso cube (cubeVals g cube) acc e
      else acc)
    (s, fun _ => 0)

/-- Triangle emission of one cube from the triangulation table. -/
def emitTriangles (g : DenseVoxelGrid) (iso : ℚ) (cube : IVec3) (s : MCState) : MCState :=
  let sev := edgeLoop g iso cube s
  (triChunks (triangleTable (cubeIndexOf (cubeVals g cube) iso))).foldl
    (fun st tri => { st with indices := st.indices ++ [sev.2 tri.1, sev.2 tri.2.1, sev.2 tri.2.2] })
    sev.1

/-- One cube of the `extract_surface` loop: Z-cutoff test, classification,
skip of empty configurations, crossed-edge vertex generation with welding,
and triangle emission from the triangulation table. -/
def processCube (g : DenseVoxelGrid) (iso max_z : ℚ) (s : MCState) (cube : IVec3) : MCState :=
  if (g.voxel_to_world cube).z > max_z then s
  else
    if cubeIndexOf (cubeVals g cube) iso = 0 ∨ cubeIndexOf (cubeVals g cube) iso = 255 then s
    else emitTriangles g iso cube s

/-- The cube iteration domain of `extract_surface`: all cubes with coordinates
in `[0, resolution-1)` on each axis, z-outer, y-middle, x-inner. -/
def cubesList (resolution : ℤ) : List IVec3 :=
  (List.range (resolution - 1).toNat).flatMap fun (z : ℕ) =>
    (List.range (resolution - 1).toNat).flatMap fun (y : ℕ) =>
      (List.range (resolution - 1).toNat).map fun (x : ℕ) =>
        ⟨(x : ℤ), (y : ℤ), (z : ℤ)⟩

/-- Group a flat index list into triangle triples (the C++ normal pass reads
`mesh.indices` three at a time). -/
def triChunksN : List ℕ → List (ℕ × ℕ × ℕ)
  | a :: b :: c :: rest => (a, b, c) :: triChunksN rest
  | _ => []

/-- The vertex-normal pass of `extract_surface`: accumulate each face normal
into its three vertices, then average and normalize (fallback `(0,0,1)` for
untouched vertices). -/
def normalsPass (vertices : List Vec3) (indices : List ℕ) : List Vec3 :=
  let acc := (triChunksN indices).foldl
    (fun (a : (ℕ → Vec3) × (ℕ → ℕ)) tri =>
      let v0 := vertices.getD tri.1 ⟨0, 0, 0⟩
      let v1 := vertices.getD tri.2.1 ⟨0, 0, 0⟩
      let v2 := vertices.getD tri.2.2 ⟨0, 0, 0⟩
      let face_normal := ((v1.sub v0).cross (v2.sub v0)).normalize
      let addAt := fun (f : ℕ → Vec3) (i : ℕ) => fun j => if j = i then (f j).add face_normal else f j
      let incAt := fun (f : ℕ → ℕ) (i : ℕ) => fun j => if j = i then f j + 1 else f j
      (addAt (addAt (addAt a.1 tri.1) tri.2.1) tri.2.2,
       incAt (incAt (incAt a.2 tri.1) tri.2.1) tri.2.2))
    (fun _ => (⟨0, 0, 0⟩ : Vec3), fun _ => (0 : ℕ))
  (List.range vertices.length).map fun i =>
    if 0 < acc.2 i then ((acc.1 i).divs (acc.2 i : ℚ)).normalize else ⟨0, 0, 1⟩

/-- `SDFBuilder::extract_surface`: run the cube loop, then the normal pass. -/
def extract_surface (g : DenseVoxelGrid) (iso_value : ℚ) (max_z : ℚ) : TriangleMesh :=
  let s := (cubesList g.resolution).foldl (processCube g iso_value max_z) MCState.init
  { vertices := s.vertices
    normals := normalsPass s.vertices s.indices
    indices := s.indices }

/-- Sparse voxel grid (`SparseVoxelGrid` in `gcode_sparse_grid.cpp`).
The NanoVDB tree (an external library, not part of this repository) is
modelled by its key-value semantics: a total map from integer coordinates to
values, defaulting to the background value `FLT_MAX` for unset coordinates. -/
structure SparseVoxelGrid where
  resolution : ℤ
  bounds : AABB
  voxel_size : ℚ
  tree : IVec3 → ℚ
  dense_equivalent : ℕ

/-- All grid coordinates `[0,res)³` in the conversion loop's z-outer order. -/
def allCoords (resolution : ℤ) : List IVec3 :=
  (List.range resolution.toNat).flatMap fun (z : ℕ) =>
    (List.range resolution.toNat).flatMap fun (y : ℕ) =>
      (List.range resolution.toNat).map fun (x : ℕ) =>
        ⟨(x : ℤ), (y : ℤ), (z : ℤ)⟩

/-- `SparseVoxelGrid::SparseVoxelGrid(dense)`: walk every dense cell and
insert it into the tree only when its value is below the 10.0 near-surface
band; all other cells stay at the implicit background `FLT_MAX`. -/
def mkSparseVoxelGrid (dense : DenseVoxelGrid) : SparseVoxelGrid :=
  { resolution := dense.resolution
    bounds := dense.bounds
    voxel_size := dense.voxel_size
    dense_equivalent := dense.memory_usage
    tree :=
      (allCoords dense.resolution).foldl
        (fun t c => if dense.get c.x c.y c.z < 10 then
            fun c' => if c' = c then dense.get c.x c.y c.z else t c'
          else t)
        (fun _ => fltMax) }

/-- `SparseVoxelGrid::get`: exact tree lookup, background for unset cells. -/
def SparseVoxelGrid.get (s : SparseVoxelGrid) (x y z : ℤ) : ℚ := s.tree ⟨x, y, z⟩

/-- `SDFBuilder::BuildStats`: size statistics of the last build. The three
wall-clock timing fields (`build_time_seconds`, `sdf_time_seconds`,
`marching_cubes_seconds`) are real-time measurements outside the model. -/
structure BuildStats where
  input_segments : ℕ
  output_triangles : ℕ
  output_vertices : ℕ
  voxel_grid_bytes : ℕ
  output_mesh_bytes : ℕ
deriving DecidableEq, Repr

/-- `SDFBuilder::build`: validate options, flatten layers, allocate the grid
from the global bounding box, rasterize, extract, and record statistics (the
pair returned models the mesh return value together with the `stats_` member
readable through `last_stats()`). -/
def build (gcode : ParsedGCodeFile) (options : SDFOptions) : TriangleMesh × BuildStats :=
  let opts := options.validate
  let all_segments := gcode.layers.flatMap (fun l => l.segments)
  let grid := mkDenseVoxelGrid opts.grid_resolution gcode.global_bounding_box
  let gen := generate_sdf grid all_segments opts.segment_radius_mm opts.smoothing_radius
  let mesh := extract_surface gen.grid opts.iso_value opts.max_z_height
  (mesh,
   { input_segments := all_segments.length
     output_triangles := mesh.triangle_count
     output_vertices := mesh.vertices.length
     voxel_grid_bytes := gen.grid.memory_usage
     output_mesh_bytes := mesh.memory_usage })

/-- ASCII lower-casing of one character (for stating the claim's
case-insensitive keyword match). -/
def asciiLower (c : Char) : Char :=
  if 'A' ≤ c ∧ c ≤ 'Z' then Char.ofNat (c.toNat + 32) else c

/-- ASCII lower-casing of a label. -/
def lowerList (s : List Char) : List Char := s.map asciiLower

/-- The keyword list asserted by the claim: shell, perimeter, surface, skin,
bridge (to be matched case-insensitively). -/
def claimedKeywords : List (List Char) :=
  [['s', 'h', 'e', 'l', 'l'],
   ['p', 'e', 'r', 'i', 'm', 'e', 't', 'e', 'r'],
   ['s', 'u', 'r', 'f', 'a', 'c', 'e'],
   ['s', 'k', 'i', 'n'],
   ['b', 'r', 'i', 'd', 'g', 'e']]

/-- The claim's rasterization predicate, read exactly as stated: extruding,
and label empty or containing a claimed keyword as a case-insensitive
substring. -/
def claimedRasterized (s : ToolpathSegment) : Bool :=
  s.is_extrusion &&
    (s.feature_type.isEmpty ||
      claimedKeywords.any fun kw => hasSub kw (lowerList s.feature_type))

/-- The ten exact substrings the code actually searches for. -/
def codeKeywords : List (List Char) :=
  [['w', 'a', 'l', 'l'], ['W', 'a', 'l', 'l'],
   ['p', 'e', 'r', 'i', 'm', 'e', 't', 'e', 'r'], ['P', 'e', 'r', 'i', 'm', 'e', 't', 'e', 'r'],
   ['s', 'u', 'r', 'f', 'a', 'c', 'e'], ['S', 'u', 'r', 'f', 'a', 'c', 'e'],
   ['s', 'k', 'i', 'n'], ['S', 'k', 'i', 'n'],
   ['b', 'r', 'i', 'd', 'g', 'e'], ['B', 'r', 'i', 'd', 'g', 'e']]

/-- World-space membership in a segment's axis-aligned bounding box expanded
by `e` on every axis (the influence region asserted by the spec). -/
def inExpandedSegBox (s : ToolpathSegment) (e : ℚ) (p : Vec3) : Prop :=
  (s.start.cmin s.stop).x - e ≤ p.x ∧ p.x ≤ (s.start.cmax s.stop).x + e ∧
    (s.start.cmin s.stop).y - e ≤ p.y ∧ p.y ≤ (s.start.cmax s.stop).y + e ∧
    (s.start.cmin s.stop).z - e ≤ p.z ∧ p.z ≤ (s.start.cmax s.stop).z + e

instance (s : ToolpathSegment) (e : ℚ) (p : Vec3) : Decidable (inExpandedSegBox s e p) := by
  unfold inExpandedSegBox; infer_instance

/-- A 64³ test grid over the world box `[0,63]³` (voxel size 1). -/
def grid64 : DenseVoxelGrid := mkDenseVoxelGrid 64 ⟨⟨0, 0, 0⟩, ⟨63, 63, 63⟩⟩

/-- A degenerate (point) extruding probe segment placed at `(5.11, 5.11, 5.11)`,
whose influence box rounds outward past the claimed region. -/
def probeSegment : ToolpathSegment :=
  ⟨⟨511/100, 511/100, 511/100⟩, ⟨511/100, 511/100, 511/100⟩, true, []⟩

/-- Scenario B's first segment: extruding, labelled `"Internal infill"`,
degenerate at `(0.5, 0.5, 0.5)` (far from every voxel center relative to the
segment radius, so the grid stays nonnegative everywhere). -/
def infillSegment : ToolpathSegment :=
  ⟨⟨1/2, 1/2, 1/2⟩, ⟨1/2, 1/2, 1/2⟩, true,
    ['I', 'n', 't', 'e', 'r', 'n', 'a', 'l', ' ', 'i', 'n', 'f', 'i', 'l', 'l']⟩

/-- Scenario B's second segment: extruding, labelled `"Outer wall"`. -/
def wallSegment : ToolpathSegment :=
  ⟨⟨1/2, 1/2, 1/2⟩, ⟨1/2, 1/2, 1/2⟩, true,
    ['O', 'u', 't', 'e', 'r', ' ', 'w', 'a', 'l', 'l']⟩

/-- Scenario B's parsed file: one layer with the two labelled segments over
the `[0,63]³` bounding box. -/
def scenarioBFile : ParsedGCodeFile :=
  ⟨[⟨[infillSegment, wallSegment]⟩], ⟨⟨0, 0, 0⟩, ⟨63, 63, 63⟩⟩⟩

/-- Scenario B's options: default options at the minimum legal resolution 64. -/
def scenarioBOptions : SDFOptions := { grid_resolution := 64 }

/-- The smallest world-space z coordinate among the 8 corners of a cell (the
"lowest corner" of the claim). -/
def lowestCornerZ (g : DenseVoxelGrid) (cube : IVec3) : ℚ :=
  min
    (min
      (min ((g.voxel_to_world (cube.add (cornerOffsets 0))).z)
        ((g.voxel_to_world (cube.add (cornerOffsets 1))).z))
      (min ((g.voxel_to_world (cube.add (cornerOffsets 2))).z)
        ((g.voxel_to_world (cube.add (cornerOffsets 3))).z)))
    (min
      (min ((g.voxel_to_world (cube.add (cornerOffsets 4))).z)
        ((g.voxel_to_world (cube.add (cornerOffsets 5))).z))
      (min ((g.voxel_to_world (cube.add (cornerOffsets 6))).z)
        ((g.voxel_to_world (cube.add (cornerOffsets 7))).z)))

/-- The two global corner coordinates of a cube's local edge. -/
def edgeCorners (cube : IVec3) (e : Fin 12) : IVec3 × IVec3 :=
  (cube.add (cornerOffsets (edgeConnections e).1), cube.add (cornerOffsets (edgeConnections e).2))

/-- The canonical welding key a cube computes for one of its local edges. -/
def pairKey (cube : IVec3) (e : Fin 12) : ℕ :=
  make_edge_key (edgeCorners cube e).1 (edgeCorners cube e).2

/-- Whether `extract_surface` processes a cube: not skipped by the z-cutoff
and not an empty configuration (0 or 255) — "a cube with a surface
crossing". -/
def cubeActive (g : DenseVoxelGrid) (iso max_z : ℚ) (cube : IVec3) : Bool :=
  decide (¬ (g.voxel_to_world cube).z > max_z) &&
    decide (¬ (cubeIndexOf (cubeVals g cube) iso = 0 ∨
      cubeIndexOf (cubeVals g cube) iso = 255))

/-- The cubes that `extract_surface` actually processes. -/
def activeCubes (g : DenseVoxelGrid) (iso max_z : ℚ) : List IVec3 :=
  (cubesList g.resolution).filter (cubeActive g iso max_z)

/-- All (cube, crossed edge) pairs over the processed cubes. -/
def crossedPairs (g : DenseVoxelGrid) (iso max_z : ℚ) : List (IVec3 × Fin 12) :=
  (activeCubes g iso max_z).flatMap fun c =>
    (crossedEdges (cubeIndexOf (cubeVals g c) iso)).map fun e => (c, e)

/-- Invariant of the extraction loop's welding cache: one emitted vertex per
cache entry, no duplicate keys, and `K` is exactly the set of cached keys. -/
def cacheInv (s : MCState) (K : Finset ℕ) : Prop :=
  s.vertices.length = s.cache.length ∧ (s.cache.map Prod.fst).Nodup ∧
    (s.cache.map Prod.fst).toFinset = K

/-- A 3³ test grid with a single inside cell at the center: all 8 cubes cross
the surface and share their center-incident edges. -/
def blobGrid : DenseVoxelGrid :=
  ((mkDenseVoxelGrid 3 ⟨⟨0, 0, 0⟩, ⟨2, 2, 2⟩⟩).fill 1).set 1 1 1 (-1)

/-! ### Helper lemmas -/

/-- Batteries' computable `Rat.floor` agrees with Mathlib's `Int.floor`. -/
theorem ratFloor_eq_intFloor (q : ℚ) : q.floor = ⌊q⌋ := by
  rw [Rat.floor_def', Rat.floor_def]

/-- Pointwise description of the sparse-conversion fold: after folding the
insertion step over a coordinate list, a coordinate holds its dense value iff
it was visited with a value inside the near-surface band, and otherwise holds
whatever the initial tree held. -/
theorem sparse_fold_get (dense : DenseVoxelGrid) (L : List IVec3) (t0 : IVec3 → ℚ) (c : IVec3) :
    (L.foldl
        (fun t c' => if dense.get c'.x c'.y c'.z < 10 then
            fun c'' => if c'' = c' then dense.get c'.x c'.y c'.z else t c''
          else t)
        t0) c =
      if c ∈ L ∧ dense.get c.x c.y c.z < 10 then dense.get c.x c.y c.z else t0 c := by
  induction L generalizing t0 with
  | nil => simp
  | cons a L ih =>
      rw [List.foldl_cons, ih]
      by_cases hc : c ∈ L ∧ dense.get c.x c.y c.z < 10
      · rw [if_pos hc, if_pos ⟨List.mem_cons_of_mem a hc.1, hc.2⟩]
      · rw [if_neg hc]
        by_cases hca : c = a
        · subst hca
          by_cases hv : dense.get c.x c.y c.z < 10
          · rw [if_pos hv, if_pos rfl, if_pos ⟨List.mem_cons_self c L, hv⟩]
          · rw [if_neg hv, if_neg (fun h => hv h.2)]
        · have : ¬ (c ∈ a :: L ∧ dense.get c.x c.y c.z < 10) := by
            rintro ⟨hm, hv⟩
            rcases List.mem_cons.mp hm with h | h
            · exact hca h
            · exact hc ⟨h, hv⟩
          rw [if_neg this]
          by_cases hv : dense.get a.x a.y a.z < 10
          · rw [if_pos hv, if_neg hca]
          · rw [if_neg hv]

/-- Membership in the conversion loop's coordinate domain is exactly the
in-bounds condition. -/
theorem mem_allCoords (resolution : ℤ) (c : IVec3) :
    c ∈ allCoords resolution ↔
      0 ≤ c.x ∧ c.x < resolution ∧ 0 ≤ c.y ∧ c.y < resolution ∧ 0 ≤ c.z ∧ c.z < resolution := by
  obtain ⟨cx, cy, cz⟩ := c
  simp only [allCoords, List.mem_flatMap, List.mem_map, List.mem_range, IVec3.mk.injEq,
    List.pure_def, List.mem_singleton, List.bind_eq_flatMap]
  constructor
  · rintro ⟨z, hz, y, hy, x, hx, rfl, rfl, rfl⟩
    refine ⟨by omega, by omega, by omega, by omega, by omega, by omega⟩
  · rintro ⟨h1, h2, h3, h4, h5, h6⟩
    exact ⟨cz.toNat, by omega, cy.toNat, by omega, cx.toNat, by omega,
      by omega, by omega, by omega⟩

/-! ### Claims -/

/-- Claim **C3.** For all `a b : ℚ` and every smoothing factor `k > 0`, the
polynomial smooth minimum `min(a,b) - h²·k/4` with `h = max(k - |a-b|, 0)/k`
is less than or equal to `min(a,b)`. -/
theorem smooth_min_le_min (a b k : ℚ) (hk : 0 < k) : smooth_min a b k ≤ min a b := by
  have h0 : 0 ≤ max (k - |a - b|) 0 / k := div_nonneg (le_max_right _ _) hk.le
  have hsq : 0 ≤ max (k - |a - b|) 0 / k * (max (k - |a - b|) 0 / k) * k * (1/4) :=
    mul_nonneg (mul_nonneg (mul_nonneg h0 h0) hk.le) (by norm_num)
  simpa [smooth_min] using sub_le_self (min a b) hsq

/-- Witness for C3 at `a = 1`, `b = 2`, `k = 1`. -/
theorem smooth_min_le_min_witness : 0 < (1 : ℚ) ∧ smooth_min 1 2 1 ≤ min 1 2 :=
  ⟨zero_lt_one, smooth_min_le_min 1 2 1 zero_lt_one⟩

/-- Claim **C6.** For every coordinate triple with any component outside
`[0, resolution)` — i.e. failing the bounds check — `DenseVoxelGrid::get`
returns the far-outside sentinel `FLT_MAX`, and `DenseVoxelGrid::set` leaves
every cell of the grid unchanged (both are total functions, so neither faults). -/
theorem dense_grid_out_of_bounds (g : DenseVoxelGrid) (x y z : ℤ) (v : ℚ)
    (h : ¬ g.in_bounds x y z) :
    g.get x y z = fltMax ∧ ∀ p q r : ℤ, (g.set x y z v).get p q r = g.get p q r := by
  refine ⟨if_neg h, fun p q r => ?_⟩
  unfold DenseVoxelGrid.set
  rw [if_neg h]

/-- Witness for C6: resolution-2 grid queried at `(2,0,0)`. -/
theorem dense_grid_out_of_bounds_witness :
    ¬ (mkDenseVoxelGrid 2 ⟨⟨0, 0, 0⟩, ⟨1, 1, 1⟩⟩).in_bounds 2 0 0 ∧
      (mkDenseVoxelGrid 2 ⟨⟨0, 0, 0⟩, ⟨1, 1, 1⟩⟩).get 2 0 0 = fltMax :=
  have h : ¬ (mkDenseVoxelGrid 2 ⟨⟨0, 0, 0⟩, ⟨1, 1, 1⟩⟩).in_bounds 2 0 0 := by decide
  ⟨h, (dense_grid_out_of_bounds _ 2 0 0 37 h).1⟩

/-- Claim **C7.** For every `SDFOptions` value, the validated options satisfy
`grid_resolution ∈ [64,1024]`, `segment_radius_mm ∈ [0.05,1.0]` and
`smoothing_radius ∈ [0.1,2.0]`; resolution requests of 32 and 4096 land on 64
and 1024 respectively, and segment-radius requests of 0.001 and 10.0 land on
0.05 and 1.0 — out-of-range inputs are corrected, never rejected. -/
theorem options_validate_clamps (o : SDFOptions) :
    64 ≤ o.validate.grid_resolution ∧ o.validate.grid_resolution ≤ 1024 ∧
      1/20 ≤ o.validate.segment_radius_mm ∧ o.validate.segment_radius_mm ≤ 1 ∧
      1/10 ≤ o.validate.smoothing_radius ∧ o.validate.smoothing_radius ≤ 2 ∧
      ({ o with grid_resolution := 32 } : SDFOptions).validate.grid_resolution = 64 ∧
      ({ o with grid_resolution := 4096 } : SDFOptions).validate.grid_resolution = 1024 ∧
      ({ o with segment_radius_mm := 1/1000 } : SDFOptions).validate.segment_radius_mm = 1/20 ∧
      ({ o with segment_radius_mm := 10 } : SDFOptions).validate.segment_radius_mm = 1 := by
  unfold SDFOptions.validate
  refine ⟨le_max_left _ _, max_le (by norm_num) (min_le_left _ _),
    le_max_left _ _, max_le (by norm_num) (min_le_left _ _),
    le_max_left _ _, max_le (by norm_num) (min_le_left _ _), ?_, ?_, ?_, ?_⟩ <;>
    simp <;> norm_num

/-- Claim **C4.** For every in-range voxel coordinate, `SparseVoxelGrid::get` on a
sparse grid built from a dense grid returns exactly the dense grid's value
when that value is below the 10.0 near-surface band, and the background
sentinel `FLT_MAX` otherwise (such cells are never stored). -/
theorem sparse_get_matches_dense (dense : DenseVoxelGrid) (x y z : ℤ)
    (h : dense.in_bounds x y z) :
    (mkSparseVoxelGrid dense).get x y z =
      if dense.get x y z < 10 then dense.get x y z else fltMax := by
  have hm : (⟨x, y, z⟩ : IVec3) ∈ allCoords dense.resolution := by
    rw [mem_allCoords]
    exact ⟨h.1, h.2.1, h.2.2.1, h.2.2.2.1, h.2.2.2.2.1, h.2.2.2.2.2⟩
  simp only [mkSparseVoxelGrid, SparseVoxelGrid.get]
  rw [sparse_fold_get dense (allCoords dense.resolution) (fun _ => fltMax) ⟨x, y, z⟩]
  by_cases hv : dense.get x y z < 10
  · rw [if_pos ⟨hm, hv⟩, if_pos hv]
  · rw [if_neg (fun hc => hv hc.2), if_neg hv]

/-- Witness for C4 on a resolution-2 grid with one near-surface cell:
the stored cell reads back its dense value, a far-outside cell reads back
the background sentinel. -/
theorem sparse_get_matches_dense_witness :
    ((mkDenseVoxelGrid 2 ⟨⟨0, 0, 0⟩, ⟨1, 1, 1⟩⟩).set 0 0 0 5).in_bounds 0 0 0 ∧
      ((mkDenseVoxelGrid 2 ⟨⟨0, 0, 0⟩, ⟨1, 1, 1⟩⟩).set 0 0 0 5).in_bounds 1 0 0 ∧
      (mkSparseVoxelGrid ((mkDenseVoxelGrid 2 ⟨⟨0, 0, 0⟩, ⟨1, 1, 1⟩⟩).set 0 0 0 5)).get 0 0 0 =
        (if ((mkDenseVoxelGrid 2 ⟨⟨0, 0, 0⟩, ⟨1, 1, 1⟩⟩).set 0 0 0 5).get 0 0 0 < 10 then
          ((mkDenseVoxelGrid 2 ⟨⟨0, 0, 0⟩, ⟨1, 1, 1⟩⟩).set 0 0 0 5).get 0 0 0 else fltMax) ∧
      (mkSparseVoxelGrid ((mkDenseVoxelGrid 2 ⟨⟨0, 0, 0⟩, ⟨1, 1, 1⟩⟩).set 0 0 0 5)).get 1 0 0 =
        (if ((mkDenseVoxelGrid 2 ⟨⟨0, 0, 0⟩, ⟨1, 1, 1⟩⟩).set 0 0 0 5).get 1 0 0 < 10 then
          ((mkDenseVoxelGrid 2 ⟨⟨0, 0, 0⟩, ⟨1, 1, 1⟩⟩).set 0 0 0 5).get 1 0 0 else fltMax) :=
  ⟨by decide, by decide,
    sparse_get_matches_dense _ 0 0 0 (by decide),
    sparse_get_matches_dense _ 1 0 0 (by decide)⟩

/-- Counterexample to C1: An extruding segment labelled `"shell"` contains
the claimed keyword `shell`, so the claim says it is rasterized; the code's
filter (which searches for `wall`, not `shell`) skips it. -/
theorem filter_claim_counterexample :
    claimedRasterized ⟨⟨0, 0, 0⟩, ⟨1, 0, 0⟩, true, ['s', 'h', 'e', 'l', 'l']⟩ = true ∧
      segmentContributes ⟨⟨0, 0, 0⟩, ⟨1, 0, 0⟩, true, ['s', 'h', 'e', 'l', 'l']⟩ = false := by
  decide

/-- The grid produced by `generate_sdf` is the fold of the per-segment
rasterizer over exactly the segments passing the contribution test (the
processed/filtered counters do not influence the grid). -/
theorem generate_sdf_grid_eq (g : DenseVoxelGrid) (segs : List ToolpathSegment) (r k : ℚ) :
    (generate_sdf g segs r k).grid =
      (segs.filter segmentContributes).foldl (fun gr sg => rasterizeSegment gr sg r k) g := by
  suffices h : ∀ (segs : List ToolpathSegment) (g : DenseVoxelGrid) (p f : ℕ),
      (segs.foldl (generateStep r k) ⟨g, p, f⟩).grid =
        (segs.filter segmentContributes).foldl (fun gr sg => rasterizeSegment gr sg r k) g by
    exact h segs g 0 0
  intro segs
  induction segs with
  | nil => intro g p f; rfl
  | cons s rest ih =>
      intro g p f
      rw [List.foldl_cons]
      by_cases hex : s.is_extrusion = true
      · by_cases hemp : s.feature_type.isEmpty = true
        · have hc : segmentContributes s = true := by
            simp [segmentContributes, hex, hemp]
          have hstep : generateStep r k ⟨g, p, f⟩ s =
              ⟨rasterizeSegment g s r k, p + 1, f⟩ := by
            simp [generateStep, hex, hemp]
          rw [hstep, List.filter_cons_of_pos hc, List.foldl_cons]
          exact ih _ _ _
        · by_cases hsh : isShellFeature s.feature_type = true
          · have hc : segmentContributes s = true := by
              simp [segmentContributes, hex, hsh]
            have hstep : generateStep r k ⟨g, p, f⟩ s =
                ⟨rasterizeSegment g s r k, p + 1, f⟩ := by
              simp [generateStep, hex, hemp, hsh]
            rw [hstep, List.filter_cons_of_pos hc, List.foldl_cons]
            exact ih _ _ _
          · have hc : ¬ segmentContributes s = true := by
              simp [segmentContributes, hex, hemp, hsh]
            have hstep : generateStep r k ⟨g, p, f⟩ s = ⟨g, p, f + 1⟩ := by
              simp [generateStep, hex, hemp, hsh]
            rw [hstep, List.filter_cons_of_neg hc]
            exact ih _ _ _
      · have hc : ¬ segmentContributes s = true := by
          simp [segmentContributes, hex]
        have hstep : generateStep r k ⟨g, p, f⟩ s = ⟨g, p, f⟩ := by
          simp [generateStep, hex]
        rw [hstep, List.filter_cons_of_neg hc]
        exact ih _ _ _

/-- Claim **C1 (amended).** Non-extruding segments never reach rasterization;
extruding segments with an empty label always do; and an extruding segment
with a non-empty label is rasterized iff the label contains one of the ten
exact substrings `wall`, `Wall`, `perimeter`, `Perimeter`, `surface`,
`Surface`, `skin`, `Skin`, `bridge`, `Bridge` (lower-case or
first-letter-capitalized, not general case-insensitive matching).
Moreover the grid produced by `generate_sdf` is exactly the fold of the
per-segment rasterizer over the segments passing this test. -/
theorem filter_amended :
    (∀ s : ToolpathSegment,
      segmentContributes s = true ↔
        (s.is_extrusion = true ∧
          (s.feature_type = [] ∨ ∃ kw ∈ codeKeywords, hasSub kw s.feature_type = true))) ∧
      ∀ (g : DenseVoxelGrid) (segs : List ToolpathSegment) (r k : ℚ),
        (generate_sdf g segs r k).grid =
          (segs.filter segmentContributes).foldl (fun gr sg => rasterizeSegment gr sg r k) g := by
  constructor
  · intro s
    simp only [segmentContributes, isShellFeature, codeKeywords, Bool.and_eq_true,
      Bool.or_eq_true, List.isEmpty_iff, List.mem_cons, List.not_mem_nil, or_false,
      exists_eq_or_imp, exists_eq_left]
    tauto
  · exact generate_sdf_grid_eq

/-- `set` never changes the grid's resolution. -/
theorem DenseVoxelGrid.set_resolution (g : DenseVoxelGrid) (x y z : ℤ) (v : ℚ) :
    (g.set x y z v).resolution = g.resolution := by
  unfold DenseVoxelGrid.set; split <;> rfl

/-- `set` never changes the grid's bounds. -/
theorem DenseVoxelGrid.set_bounds (g : DenseVoxelGrid) (x y z : ℤ) (v : ℚ) :
    (g.set x y z v).bounds = g.bounds := by
  unfold DenseVoxelGrid.set; split <;> rfl

/-- `set` never changes the voxel size. -/
theorem DenseVoxelGrid.set_voxel_size (g : DenseVoxelGrid) (x y z : ℤ) (v : ℚ) :
    (g.set x y z v).voxel_size = g.voxel_size := by
  unfold DenseVoxelGrid.set; split <;> rfl

/-- `set` never changes the world transform. -/
theorem DenseVoxelGrid.set_voxel_to_world (g : DenseVoxelGrid) (x y z : ℤ) (v : ℚ) (p : IVec3) :
    (g.set x y z v).voxel_to_world p = g.voxel_to_world p := by
  unfold DenseVoxelGrid.voxel_to_world
  rw [DenseVoxelGrid.set_bounds, DenseVoxelGrid.set_voxel_size]

/-- `set` never changes the bounds check. -/
theorem DenseVoxelGrid.set_in_bounds (g : DenseVoxelGrid) (x y z : ℤ) (v : ℚ) (p q r : ℤ) :
    (g.set x y z v).in_bounds p q r ↔ g.in_bounds p q r := by
  unfold DenseVoxelGrid.in_bounds
  rw [DenseVoxelGrid.set_resolution]

/-- Row-major flat indices of distinct in-bounds coordinates are distinct. -/
theorem DenseVoxelGrid.index_inj (g : DenseVoxelGrid) (x y z p q r : ℤ)
    (h1 : g.in_bounds x y z) (h2 : g.in_bounds p q r)
    (h : g.index x y z = g.index p q r) : x = p ∧ y = q ∧ z = r := by
  obtain ⟨hx0, hxr, hy0, hyr, hz0, hzr⟩ := h1
  obtain ⟨hp0, hpr, hq0, hqr, hr0, hrr⟩ := h2
  unfold DenseVoxelGrid.index at h
  set R := g.resolution.toNat with hR
  have hxR : x.toNat < R := by omega
  have hyR : y.toNat < R := by omega
  have hzR : z.toNat < R := by omega
  have hpR : p.toNat < R := by omega
  have hqR : q.toNat < R := by omega
  have hrR : r.toNat < R := by omega
  have hassoc : ∀ a b c : ℕ, c * R * R + b * R + a = a + R * (b + R * c) := by
    intro a b c; ring
  have h' : x.toNat + R * (y.toNat + R * z.toNat) = p.toNat + R * (q.toNat + R * r.toNat) := by
    rw [← hassoc, ← hassoc]; exact h
  have hx : x.toNat = p.toNat := by
    have := congrArg (· % R) h'
    simpa [Nat.add_mul_mod_self_left, Nat.mod_eq_of_lt hxR, Nat.mod_eq_of_lt hpR] using this
  have h'' : y.toNat + R * z.toNat = q.toNat + R * r.toNat := by
    have := congrArg (· / R) h'
    simpa [Nat.add_mul_div_left _ _ (by omega : 0 < R), Nat.div_eq_of_lt hxR,
      Nat.div_eq_of_lt hpR] using this
  have hy : y.toNat = q.toNat := by
    have := congrArg (· % R) h''
    simpa [Nat.add_mul_mod_self_left, Nat.mod_eq_of_lt hyR, Nat.mod_eq_of_lt hqR] using this
  have hz : z.toNat = r.toNat := by
    have := congrArg (· / R) h''
    simpa [Nat.add_mul_div_left _ _ (by omega : 0 < R), Nat.div_eq_of_lt hyR,
      Nat.div_eq_of_lt hqR] using this
  omega

/-- Pointwise description of the data map after a `set`. -/
theorem DenseVoxelGrid.set_data (g : DenseVoxelGrid) (x y z : ℤ) (v : ℚ) (i : ℕ) :
    (g.set x y z v).data i =
      if g.in_bounds x y z ∧ i = g.index x y z then v else g.data i := by
  unfold DenseVoxelGrid.set
  by_cases hb : g.in_bounds x y z
  · rw [if_pos hb]
    by_cases hi : i = g.index x y z
    · rw [if_pos ⟨hb, hi⟩]; exact if_pos hi
    · rw [if_neg (fun hc => hi hc.2)]; exact if_neg hi
  · rw [if_neg hb, if_neg (fun hc => hb hc.1)]

/-- `set` never changes the flat index function. -/
theorem DenseVoxelGrid.set_index (g : DenseVoxelGrid) (x y z : ℤ) (v : ℚ) (p q r : ℤ) :
    (g.set x y z v).index p q r = g.index p q r := by
  unfold DenseVoxelGrid.index
  rw [DenseVoxelGrid.set_resolution]

/-- Reading back the cell just written (in bounds) yields the written value. -/
theorem DenseVoxelGrid.get_set_same (g : DenseVoxelGrid) (x y z : ℤ) (v : ℚ)
    (h : g.in_bounds x y z) : (g.set x y z v).get x y z = v := by
  unfold DenseVoxelGrid.get
  rw [if_pos ((g.set_in_bounds x y z v x y z).mpr h), DenseVoxelGrid.set_index,
    DenseVoxelGrid.set_data, if_pos ⟨h, rfl⟩]

/-- Writing one cell leaves every other cell unchanged. -/
theorem DenseVoxelGrid.get_set_ne (g : DenseVoxelGrid) (x y z p q r : ℤ) (v : ℚ)
    (h : ¬ (p = x ∧ q = y ∧ r = z)) : (g.set x y z v).get p q r = g.get p q r := by
  unfold DenseVoxelGrid.get
  by_cases hp : g.in_bounds p q r
  · rw [if_pos ((g.set_in_bounds x y z v p q r).mpr hp), if_pos hp,
      DenseVoxelGrid.set_index, DenseVoxelGrid.set_data]
    by_cases hb : g.in_bounds x y z
    · have : ¬ (g.index p q r = g.index x y z) := fun he =>
        h (g.index_inj p q r x y z hp hb he)
      rw [if_neg (fun hc => this hc.2)]
    · rw [if_neg (fun hc => hb hc.1)]
  · rw [if_neg (fun hc => hp ((g.set_in_bounds x y z v p q r).mp hc)), if_neg hp]

/-- Membership in an integer box list is the componentwise interval condition. -/
theorem mem_boxList (lo hi p : IVec3) :
    p ∈ boxList lo hi ↔
      lo.x ≤ p.x ∧ p.x ≤ hi.x ∧ lo.y ≤ p.y ∧ p.y ≤ hi.y ∧ lo.z ≤ p.z ∧ p.z ≤ hi.z := by
  obtain ⟨px, py, pz⟩ := p
  simp only [boxList, List.mem_flatMap, List.mem_map, List.mem_range, IVec3.mk.injEq,
    List.pure_def, List.mem_singleton, List.bind_eq_flatMap]
  constructor
  · rintro ⟨dz, hdz, dy, hdy, dx, hdx, rfl, rfl, rfl⟩
    refine ⟨by omega, by omega, by omega, by omega, by omega, by omega⟩
  · rintro ⟨h1, h2, h3, h4, h5, h6⟩
    exact ⟨(pz - lo.z).toNat, by omega, (py - lo.y).toNat, by omega, (px - lo.x).toNat,
      by omega, by omega, by omega, by omega⟩

/-- The rasterization box list visits each voxel coordinate at most once. -/
theorem nodup_boxList (lo hi : IVec3) : (boxList lo hi).Nodup := by
  unfold boxList
  rw [List.nodup_flatMap]
  refine ⟨fun dz _ => ?_, ?_⟩
  · rw [List.nodup_flatMap]
    refine ⟨fun dy _ => ?_, ?_⟩
    · refine (List.nodup_range _).map ?_
      intro a b hab
      have := congrArg IVec3.x hab
      simp only at this
      omega
    · refine (List.pairwise_lt_range _).imp ?_
      intro a b hab x hxa hxb
      simp only [List.mem_map, List.mem_range] at hxa hxb
      obtain ⟨da, _, rfl⟩ := hxa
      obtain ⟨db, _, he⟩ := hxb
      have := congrArg IVec3.y he
      simp only at this
      omega
  · refine (List.pairwise_lt_range _).imp ?_
    intro a b hab x hxa hxb
    simp only [List.mem_flatMap, List.mem_map, List.mem_range] at hxa hxb
    obtain ⟨da, _, ea, _, rfl⟩ := hxa
    obtain ⟨db, _, eb, _, he⟩ := hxb
    have := congrArg IVec3.z he
    simp only at this
    omega

/-- The rasterization fold preserves resolution, bounds and voxel size. -/
theorem rasterFold_fields (s : ToolpathSegment) (r k : ℚ) (L : List IVec3) (g : DenseVoxelGrid) :
    (L.foldl
        (fun gr p =>
          let voxel_center := gr.voxel_to_world p
          let dist := capsule_sdf voxel_center s.start s.stop r
          let current := gr.get p.x p.y p.z
          gr.set p.x p.y p.z (smooth_min current dist k))
        g).resolution = g.resolution ∧
      (L.foldl
        (fun gr p =>
          let voxel_center := gr.voxel_to_world p
          let dist := capsule_sdf voxel_center s.start s.stop r
          let current := gr.get p.x p.y p.z
          gr.set p.x p.y p.z (smooth_min current dist k))
        g).bounds = g.bounds ∧
      (L.foldl
        (fun gr p =>
          let voxel_center := gr.voxel_to_world p
          let dist := capsule_sdf voxel_center s.start s.stop r
          let current := gr.get p.x p.y p.z
          gr.set p.x p.y p.z (smooth_min current dist k))
        g).voxel_size = g.voxel_size := by
  induction L generalizing g with
  | nil => exact ⟨rfl, rfl, rfl⟩
  | cons a L ih =>
      rw [List.foldl_cons]
      obtain ⟨h1, h2, h3⟩ := ih (g.set a.x a.y a.z _)
      exact ⟨h1.trans (g.set_resolution ..), h2.trans (g.set_bounds ..),
        h3.trans (g.set_voxel_size ..)⟩

/-- Pointwise description of the rasterization fold over a duplicate-free,
in-bounds voxel list: each listed voxel is blended exactly once with the
capsule distance at its center, every other voxel is untouched. -/
theorem rasterFold_get (s : ToolpathSegment) (r k : ℚ) (L : List IVec3) (g : DenseVoxelGrid)
    (hnd : L.Nodup) (hin : ∀ p ∈ L, g.in_bounds p.x p.y p.z) (p : IVec3) :
    (L.foldl
        (fun gr q =>
          let voxel_center := gr.voxel_to_world q
          let dist := capsule_sdf voxel_center s.start s.stop r
          let current := gr.get q.x q.y q.z
          gr.set q.x q.y q.z (smooth_min current dist k))
        g).get p.x p.y p.z =
      if p ∈ L then
        smooth_min (g.get p.x p.y p.z) (capsule_sdf (g.voxel_to_world p) s.start s.stop r) k
      else g.get p.x p.y p.z := by
  induction L generalizing g with
  | nil => simp
  | cons a L ih =>
      have ha : a ∉ L := (List.nodup_cons.mp hnd).1
      have hL : L.Nodup := (List.nodup_cons.mp hnd).2
      have hain : g.in_bounds a.x a.y a.z := hin a (List.mem_cons_self a L)
      rw [List.foldl_cons]
      have hin' : ∀ q ∈ L, (g.set a.x a.y a.z
          (smooth_min (g.get a.x a.y a.z)
            (capsule_sdf (g.voxel_to_world a) s.start s.stop r) k)).in_bounds q.x q.y q.z :=
        fun q hq => (g.set_in_bounds ..).mpr (hin q (List.mem_cons_of_mem a hq))
      rw [ih _ hL hin']
      by_cases hp : p ∈ L
      · rw [if_pos hp, if_pos (List.mem_cons_of_mem a hp)]
        have hpa : p ≠ a := fun he => ha (he ▸ hp)
        have hne : ¬ (p.x = a.x ∧ p.y = a.y ∧ p.z = a.z) := by
          rintro ⟨e1, e2, e3⟩
          exact hpa (by cases p; cases a; simp only at e1 e2 e3; simp [e1, e2, e3])
        rw [DenseVoxelGrid.get_set_ne _ _ _ _ _ _ _ _ hne, DenseVoxelGrid.set_voxel_to_world]
      · rw [if_neg hp]
        by_cases hpa : p = a
        · subst hpa
          rw [if_pos (List.mem_cons_self p L), DenseVoxelGrid.get_set_same _ _ _ _ _ hain]
        · have hne : ¬ (p.x = a.x ∧ p.y = a.y ∧ p.z = a.z) := by
            rintro ⟨e1, e2, e3⟩
            exact hpa (by cases p; cases a; simp only at e1 e2 e3; simp [e1, e2, e3])
          rw [if_neg (fun hm => (List.mem_cons.mp hm).elim hpa hp),
            DenseVoxelGrid.get_set_ne _ _ _ _ _ _ _ _ hne]

/-- Every voxel of a segment's rasterization box is in bounds. -/
theorem boxList_in_bounds (g : DenseVoxelGrid) (s : ToolpathSegment) (influence : ℚ)
    (p : IVec3) (hp : p ∈ boxList (segVoxelMin g s influence) (segVoxelMax g s influence)) :
    g.in_bounds p.x p.y p.z := by
  rw [mem_boxList] at hp
  obtain ⟨h1, h2, h3, h4, h5, h6⟩ := hp
  simp only [segVoxelMin, segVoxelMax, IVec3.cmax, IVec3.cmin] at h1 h2 h3 h4 h5 h6
  exact ⟨by omega, by omega, by omega, by omega, by omega, by omega⟩

/-- Pointwise description of `rasterizeSegment`: a voxel inside the influence
box is blended once with the capsule distance at its center; every voxel
outside the box keeps its value. -/
theorem rasterizeSegment_get (g : DenseVoxelGrid) (s : ToolpathSegment) (r k : ℚ) (p : IVec3) :
    (rasterizeSegment g s r k).get p.x p.y p.z =
      if p ∈ boxList (segVoxelMin g s (r + k + g.voxel_size))
          (segVoxelMax g s (r + k + g.voxel_size)) then
        smooth_min (g.get p.x p.y p.z) (capsule_sdf (g.voxel_to_world p) s.start s.stop r) k
      else g.get p.x p.y p.z := by
  unfold rasterizeSegment
  exact rasterFold_get s r k _ g (nodup_boxList _ _)
    (fun q hq => boxList_in_bounds g s _ q hq) p

/-- `rasterizeSegment` preserves resolution, bounds and voxel size. -/
theorem rasterizeSegment_fields (g : DenseVoxelGrid) (s : ToolpathSegment) (r k : ℚ) :
    (rasterizeSegment g s r k).resolution = g.resolution ∧
      (rasterizeSegment g s r k).bounds = g.bounds ∧
      (rasterizeSegment g s r k).voxel_size = g.voxel_size := by
  unfold rasterizeSegment
  exact rasterFold_fields s r k _ g

/-- The away-from-zero rounding stays within half a unit of its argument. -/
theorem roundAway_bounds (q : ℚ) : q - 1/2 ≤ (roundAway q : ℚ) ∧ (roundAway q : ℚ) ≤ q + 1/2 := by
  unfold roundAway
  by_cases hq : q < 0
  · rw [if_pos hq, ratFloor_eq_intFloor]
    push_cast
    constructor
    · have := Int.floor_le (-q + 1/2)
      linarith
    · have := Int.lt_floor_add_one (-q + 1/2)
      linarith
  · rw [if_neg hq, ratFloor_eq_intFloor]
    constructor
    · have := Int.lt_floor_add_one (q + 1/2)
      linarith
    · have := Int.floor_le (q + 1/2)
      linarith

/-- Lower half of the rounding argument: a voxel index at or above the rounded
lower box corner has world coordinate at least the corner minus half a voxel. -/
theorem axis_lower (vs : ℚ) (hvs : 0 < vs) (bm lo : ℚ) (pi : ℤ)
    (h : roundAway ((lo - bm) / vs) ≤ pi) : lo - (1/2) * vs ≤ bm + vs * (pi : ℚ) := by
  have hb := (roundAway_bounds ((lo - bm) / vs)).1
  have hpi : (lo - bm) / vs - 1/2 ≤ (pi : ℚ) := le_trans hb (by exact_mod_cast h)
  have := mul_le_mul_of_nonneg_left hpi hvs.le
  have hc : vs * ((lo - bm) / vs) = lo - bm := mul_div_cancel₀ _ hvs.ne'
  nlinarith [hc]

/-- Upper half of the rounding argument. -/
theorem axis_upper (vs : ℚ) (hvs : 0 < vs) (bm hi : ℚ) (pi : ℤ)
    (h : pi ≤ roundAway ((hi - bm) / vs)) : bm + vs * (pi : ℚ) ≤ hi + (1/2) * vs := by
  have hb := (roundAway_bounds ((hi - bm) / vs)).2
  have hpi : (pi : ℚ) ≤ (hi - bm) / vs + 1/2 := le_trans (by exact_mod_cast h) hb
  have := mul_le_mul_of_nonneg_left hpi hvs.le
  have hc : vs * ((hi - bm) / vs) = hi - bm := mul_div_cancel₀ _ hvs.ne'
  nlinarith [hc]

/-- Counterexample to C9: With voxel size 1 and a point segment at
`(5.11, 5.11, 5.11)`, the rasterizer's rounded influence box starts at voxel
index 3, whose center `(3,3,3)` lies outside the segment's bounding box
expanded by `segment_radius + smoothing_radius + voxel_size = 1.71`
(the box starts at 3.4); yet rasterization changes that voxel's value. -/
theorem frame_claim_counterexample :
    ¬ inExpandedSegBox probeSegment (21/100 + 1/2 + grid64.voxel_size)
        (grid64.voxel_to_world ⟨3, 3, 3⟩) ∧
      (rasterizeSegment grid64 probeSegment (21/100) (1/2)).get 3 3 3 ≠ grid64.get 3 3 3 := by
  with_unfolding_all decide

/-- Claim **C9 (amended).** The rasterizer is a pure function of the target grid,
and for each rasterized segment it modifies only voxels whose center lies
inside the segment's axis-aligned bounding box expanded by
`segment_radius + smoothing_radius + 1.5·voxel_size` on every axis (the
extra half voxel accounts for the round-to-nearest conversion of the box
corners to voxel indices); every voxel outside that enlarged region keeps
the value it had before the segment was rasterized. -/
theorem raster_influence_amended (g : DenseVoxelGrid) (s : ToolpathSegment) (r k : ℚ)
    (p : IVec3) (hvs : 0 < g.voxel_size)
    (hmod : (rasterizeSegment g s r k).get p.x p.y p.z ≠ g.get p.x p.y p.z) :
    inExpandedSegBox s (r + k + (3/2) * g.voxel_size) (g.voxel_to_world p) := by
  have hbox : p ∈ boxList (segVoxelMin g s (r + k + g.voxel_size))
      (segVoxelMax g s (r + k + g.voxel_size)) := by
    by_contra hnb
    exact hmod (by rw [rasterizeSegment_get, if_neg hnb])
  rw [mem_boxList] at hbox
  obtain ⟨h1, h2, h3, h4, h5, h6⟩ := hbox
  simp only [segVoxelMin, segVoxelMax, IVec3.cmax, IVec3.cmin, DenseVoxelGrid.world_to_voxel,
    Vec3.sub, Vec3.divs, Vec3.add, Vec3.cmin, Vec3.cmax, Vec3.smul, IVec3.toVec3] at h1 h2 h3 h4 h5 h6
  have h1' := le_trans (le_max_left _ _) h1
  have h3' := le_trans (le_max_left _ _) h3
  have h5' := le_trans (le_max_left _ _) h5
  have h2' := le_trans h2 (min_le_left _ _)
  have h4' := le_trans h4 (min_le_left _ _)
  have h6' := le_trans h6 (min_le_left _ _)
  unfold inExpandedSegBox
  simp only [DenseVoxelGrid.voxel_to_world, Vec3.add, Vec3.smul, IVec3.toVec3, Vec3.cmin,
    Vec3.cmax]
  refine ⟨?_, ?_, ?_, ?_, ?_, ?_⟩
  · have := axis_lower g.voxel_size hvs g.bounds.bmin.x
      (min s.start.x s.stop.x - (r + k + g.voxel_size)) p.x h1'
    linarith
  · have := axis_upper g.voxel_size hvs g.bounds.bmin.x
      (max s.start.x s.stop.x + (r + k + g.voxel_size)) p.x h2'
    linarith
  · have := axis_lower g.voxel_size hvs g.bounds.bmin.y
      (min s.start.y s.stop.y - (r + k + g.voxel_size)) p.y h3'
    linarith
  · have := axis_upper g.voxel_size hvs g.bounds.bmin.y
      (max s.start.y s.stop.y + (r + k + g.voxel_size)) p.y h4'
    linarith
  · have := axis_lower g.voxel_size hvs g.bounds.bmin.z
      (min s.start.z s.stop.z - (r + k + g.voxel_size)) p.z h5'
    linarith
  · have := axis_upper g.voxel_size hvs g.bounds.bmin.z
      (max s.start.z s.stop.z + (r + k + g.voxel_size)) p.z h6'
    linarith

/-- Witness for the amended C9 at the concrete probe configuration. -/
theorem raster_influence_amended_witness :
    0 < grid64.voxel_size ∧
      (rasterizeSegment grid64 probeSegment (21/100) (1/2)).get 3 3 3 ≠ grid64.get 3 3 3 ∧
      inExpandedSegBox probeSegment (21/100 + 1/2 + (3/2) * grid64.voxel_size)
        (grid64.voxel_to_world ⟨3, 3, 3⟩) :=
  have h1 : 0 < grid64.voxel_size := by with_unfolding_all decide
  have h2 : (rasterizeSegment grid64 probeSegment (21/100) (1/2)).get 3 3 3 ≠
      grid64.get 3 3 3 := by with_unfolding_all decide
  ⟨h1, h2, raster_influence_amended grid64 probeSegment (21/100) (1/2) ⟨3, 3, 3⟩ h1 h2⟩

/-- Folding a function that fixes the accumulator over a whole list is the
identity. -/
theorem foldl_fixed {α β : Type} (L : List β) (f : α → β → α) (init : α)
    (h : ∀ c ∈ L, ∀ st, f st c = st) : L.foldl f init = init := by
  induction L generalizing init with
  | nil => rfl
  | cons a L ih =>
      rw [List.foldl_cons, h a (List.mem_cons_self a L)]
      exact ih init (fun c hc st => h c (List.mem_cons_of_mem a hc) st)

/-- Membership in the marching-cubes iteration domain. -/
theorem mem_cubesList (resolution : ℤ) (c : IVec3) :
    c ∈ cubesList resolution ↔
      0 ≤ c.x ∧ c.x < resolution - 1 ∧ 0 ≤ c.y ∧ c.y < resolution - 1 ∧
        0 ≤ c.z ∧ c.z < resolution - 1 := by
  obtain ⟨cx, cy, cz⟩ := c
  simp only [cubesList, List.mem_flatMap, List.mem_map, List.mem_range, IVec3.mk.injEq]
  constructor
  · rintro ⟨z, hz, y, hy, x, hx, rfl, rfl, rfl⟩
    refine ⟨by omega, by omega, by omega, by omega, by omega, by omega⟩
  · rintro ⟨h1, h2, h3, h4, h5, h6⟩
    exact ⟨cz.toNat, by omega, cy.toNat, by omega, cx.toNat, by omega,
      by omega, by omega, by omega⟩

/-- Every corner offset has components in `{0, 1}`. -/
theorem cornerOffsets_mem (i : Fin 8) :
    (0 ≤ (cornerOffsets i).x ∧ (cornerOffsets i).x ≤ 1) ∧
      (0 ≤ (cornerOffsets i).y ∧ (cornerOffsets i).y ≤ 1) ∧
      (0 ≤ (cornerOffsets i).z ∧ (cornerOffsets i).z ≤ 1) := by
  fin_cases i <;> simp [cornerOffsets]

/-- All 8 corners of an iterated cube are in bounds. -/
theorem cube_corners_in_bounds (g : DenseVoxelGrid) (c : IVec3)
    (hc : c ∈ cubesList g.resolution) (i : Fin 8) :
    g.in_bounds (c.add (cornerOffsets i)).x (c.add (cornerOffsets i)).y
      (c.add (cornerOffsets i)).z := by
  rw [mem_cubesList] at hc
  obtain ⟨h1, h2, h3, h4, h5, h6⟩ := hc
  obtain ⟨⟨o1, o2⟩, ⟨o3, o4⟩, o5, o6⟩ := cornerOffsets_mem i
  simp only [IVec3.add]
  exact ⟨by omega, by omega, by omega, by omega, by omega, by omega⟩

/-- Bit-level description of the cube classification: bit `n` of the cube
index is set exactly when some corner numbered `n` has value strictly below
the iso-value. -/
theorem cubeIndexOf_testBit (vals : Fin 8 → ℚ) (iso : ℚ) (n : ℕ) :
    (cubeIndexOf vals iso).testBit n =
      (List.finRange 8).any (fun j => j.val == n && decide (vals j < iso)) := by
  unfold cubeIndexOf
  suffices h : ∀ (l : List (Fin 8)) (acc : ℕ),
      (l.foldl (fun a j => if vals j < iso then a ||| (1 <<< j.val) else a) acc).testBit n =
        (acc.testBit n || l.any (fun j => j.val == n && decide (vals j < iso))) by
    simpa using h (List.finRange 8) 0
  intro l
  induction l with
  | nil => intro acc; simp
  | cons j l ih =>
      intro acc
      rw [List.foldl_cons]
      by_cases hj : vals j < iso
      · rw [if_pos hj, ih]
        have hone : (1 <<< j.val).testBit n = (j.val == n) := by
          rw [Nat.testBit_shiftLeft, Bool.eq_iff_iff]
          simp [Nat.testBit_one_eq_true_iff_self_eq_zero]
          omega
        rw [Nat.testBit_or, hone]
        simp [hj, Bool.or_assoc]
      · rw [if_neg hj, ih]
        simp [hj]

/-- A corner whose value is not below the iso-value contributes no bit; in
particular an all-`≥ iso` cube classifies as configuration 0. -/
theorem cubeIndexOf_eq_zero (vals : Fin 8 → ℚ) (iso : ℚ)
    (h : ∀ i, ¬ vals i < iso) : cubeIndexOf vals iso = 0 := by
  unfold cubeIndexOf
  have : ∀ (l : List (Fin 8)),
      l.foldl (fun a j => if vals j < iso then a ||| (1 <<< j.val) else a) 0 = 0 := by
    intro l
    induction l with
    | nil => rfl
    | cons j l ih => rw [List.foldl_cons, if_neg (h j)]; exact ih
  exact this _

/-- A cube all of whose corners read `≥ iso` leaves the extraction state
unchanged. -/
theorem processCube_skip (g : DenseVoxelGrid) (iso max_z : ℚ) (st : MCState) (c : IVec3)
    (h : ∀ i : Fin 8,
      ¬ g.get (c.add (cornerOffsets i)).x (c.add (cornerOffsets i)).y
          (c.add (cornerOffsets i)).z < iso) :
    processCube g iso max_z st c = st := by
  unfold processCube
  by_cases hz : (g.voxel_to_world c).z > max_z
  · rw [if_pos hz]
  · rw [if_neg hz]
    rw [cubeIndexOf_eq_zero (cubeVals g c) iso h, if_pos (Or.inl rfl)]

/-- A grid reading `≥ iso` at every in-bounds cell extracts an empty mesh. -/
theorem extract_surface_empty (g : DenseVoxelGrid) (iso max_z : ℚ)
    (h : ∀ x y z : ℤ, g.in_bounds x y z → iso ≤ g.get x y z) :
    extract_surface g iso max_z = ⟨[], [], []⟩ := by
  unfold extract_surface
  rw [foldl_fixed _ _ _ (fun c hc st => processCube_skip g iso max_z st c (fun i =>
    not_lt.mpr (h _ _ _ (cube_corners_in_bounds g c hc i))))]
  rfl

/-- Claim **C10.** A corner whose value equals the iso-value exactly is classified
as not inside: the classification sets a corner's bit only for values
strictly below the iso-value. Consequently a grid in which every in-bounds
cell equals the iso-value yields cube index 0 for every iterated cell and an
empty mesh. -/
theorem iso_equal_corner_outside :
    (∀ (vals : Fin 8 → ℚ) (iso : ℚ) (i : Fin 8),
        vals i = iso → (cubeIndexOf vals iso).testBit i.val = false) ∧
      ∀ (g : DenseVoxelGrid) (iso max_z : ℚ),
        (∀ x y z : ℤ, g.in_bounds x y z → g.get x y z = iso) →
          (∀ c ∈ cubesList g.resolution,
              cubeIndexOf
                (fun i => g.get (c.add (cornerOffsets i)).x (c.add (cornerOffsets i)).y
                  (c.add (cornerOffsets i)).z) iso = 0) ∧
            extract_surface g iso max_z = ⟨[], [], []⟩ := by
  constructor
  · intro vals iso i hi
    rw [cubeIndexOf_testBit]
    rw [List.any_eq_false]
    intro j hj
    simp only [Bool.and_eq_true, beq_iff_eq, decide_eq_true_eq, not_and]
    intro hji
    have : j = i := Fin.ext hji
    subst this
    rw [hi]
    exact lt_irrefl iso
  · intro g iso max_z h
    refine ⟨fun c hc => ?_, ?_⟩
    · exact cubeIndexOf_eq_zero _ _ fun i => by
        rw [h _ _ _ (cube_corners_in_bounds g c hc i)]
        exact lt_irrefl iso
    · exact extract_surface_empty g iso max_z fun x y z hb => le_of_eq (h x y z hb).symm

/-- Witness for C10: a resolution-2 grid filled with the iso-value 37 has no
inside corner and extracts the empty mesh. -/
theorem iso_equal_corner_outside_witness :
    (cubeIndexOf (fun _ => (37 : ℚ)) 37).testBit 0 = false ∧
      extract_surface ((mkDenseVoxelGrid 2 ⟨⟨0, 0, 0⟩, ⟨1, 1, 1⟩⟩).fill 37) 37 fltMax =
        ⟨[], [], []⟩ :=
  have h : ∀ x y z : ℤ,
      ((mkDenseVoxelGrid 2 ⟨⟨0, 0, 0⟩, ⟨1, 1, 1⟩⟩).fill 37).in_bounds x y z →
        ((mkDenseVoxelGrid 2 ⟨⟨0, 0, 0⟩, ⟨1, 1, 1⟩⟩).fill 37).get x y z = 37 :=
    fun x y z hb => by
      simp only [DenseVoxelGrid.get, if_pos hb]
      rfl
  ⟨iso_equal_corner_outside.1 (fun _ => 37) 37 0 rfl,
    (iso_equal_corner_outside.2 _ 37 fltMax h).2⟩

/-- A predicate preserved by every step of a fold holds for the fold. -/
theorem foldl_invariant {α β : Type} (P : α → Prop) (f : α → β → α) (L : List β) (init : α)
    (h0 : P init) (hstep : ∀ a, P a → ∀ b ∈ L, P (f a b)) : P (L.foldl f init) := by
  induction L generalizing init with
  | nil => exact h0
  | cons b L ih =>
      exact ih (f init b) (hstep init h0 b (List.mem_cons_self b L))
        (fun a ha c hc => hstep a ha c (List.mem_cons_of_mem b hc))

/-- World z coordinate of a cube corner. -/
theorem corner_world_z (g : DenseVoxelGrid) (cube : IVec3) (i : Fin 8) :
    (g.voxel_to_world (cube.add (cornerOffsets i))).z =
      g.bounds.bmin.z + g.voxel_size * ((cube.z : ℚ) + ((cornerOffsets i).z : ℚ)) := by
  simp only [DenseVoxelGrid.voxel_to_world, IVec3.add, Vec3.add, Vec3.smul, IVec3.toVec3]
  push_cast
  ring

/-- World z coordinate of the cube's own position (corner 0). -/
theorem cube_world_z (g : DenseVoxelGrid) (cube : IVec3) :
    (g.voxel_to_world cube).z = g.bounds.bmin.z + g.voxel_size * (cube.z : ℚ) := by
  simp only [DenseVoxelGrid.voxel_to_world, Vec3.add, Vec3.smul, IVec3.toVec3]

/-- With a nonnegative voxel size, every corner of a cell sits at or above the
cell's own world position in z. -/
theorem cube_le_corner_z (g : DenseVoxelGrid) (cube : IVec3) (hvs : 0 ≤ g.voxel_size)
    (i : Fin 8) :
    (g.voxel_to_world cube).z ≤ (g.voxel_to_world (cube.add (cornerOffsets i))).z := by
  rw [corner_world_z, cube_world_z]
  have h0 : (0 : ℚ) ≤ ((cornerOffsets i).z : ℚ) := by
    exact_mod_cast (cornerOffsets_mem i).2.2.1
  nlinarith

/-- The z-cutoff test of `extract_surface` compares exactly the lowest corner
of the cell (given a nonnegative voxel size). -/
theorem lowestCornerZ_eq (g : DenseVoxelGrid) (cube : IVec3) (hvs : 0 ≤ g.voxel_size) :
    lowestCornerZ g cube = (g.voxel_to_world cube).z := by
  have hc0 : cube.add (cornerOffsets 0) = cube := by
    cases cube; simp [cornerOffsets, IVec3.add]
  refine le_antisymm ?_ ?_
  · calc lowestCornerZ g cube ≤
        min ((g.voxel_to_world (cube.add (cornerOffsets 0))).z)
          ((g.voxel_to_world (cube.add (cornerOffsets 1))).z) :=
          le_trans (min_le_left _ _) (min_le_left _ _)
      _ ≤ (g.voxel_to_world (cube.add (cornerOffsets 0))).z := min_le_left _ _
      _ = (g.voxel_to_world cube).z := by rw [hc0]
  · exact le_min
      (le_min (le_min (cube_le_corner_z g cube hvs 0) (cube_le_corner_z g cube hvs 1))
        (le_min (cube_le_corner_z g cube hvs 2) (cube_le_corner_z g cube hvs 3)))
      (le_min (le_min (cube_le_corner_z g cube hvs 4) (cube_le_corner_z g cube hvs 5))
        (le_min (cube_le_corner_z g cube hvs 6) (cube_le_corner_z g cube hvs 7)))

/-- The clamped interpolation parameter lies in `[0, 1]`. -/
theorem clampQ_unit (v : ℚ) : 0 ≤ clampQ v 0 1 ∧ clampQ v 0 1 ≤ 1 :=
  ⟨le_max_left _ _, max_le zero_le_one (min_le_left _ _)⟩

/-- A convex mix of two points bounded in z stays bounded in z. -/
theorem mix_z_le (a b : Vec3) (t M : ℚ) (ht0 : 0 ≤ t) (ht1 : t ≤ 1)
    (ha : a.z ≤ M) (hb : b.z ≤ M) : (a.mix b t).z ≤ M := by
  simp only [Vec3.mix]
  nlinarith

/-- The crossed-edge step only appends vertices below the z bound (when all
corners of the cube are below the bound). -/
theorem edgeStep_vertices_bound (g : DenseVoxelGrid) (iso : ℚ) (cube : IVec3)
    (vals : Fin 8 → ℚ) (acc : MCState × (Fin 12 → ℕ)) (e : Fin 12) (M : ℚ)
    (hacc : ∀ v ∈ acc.1.vertices, v.z ≤ M)
    (hcorner : ∀ i : Fin 8, (g.voxel_to_world (cube.add (cornerOffsets i))).z ≤ M) :
    ∀ v ∈ (edgeStep g iso cube vals acc e).1.vertices, v.z ≤ M := by
  unfold edgeStep
  cases hl : acc.1.cache.lookup (make_edge_key (cube.add (cornerOffsets (edgeConnections e).1))
      (cube.add (cornerOffsets (edgeConnections e).2))) with
  | some vi => simpa [hl] using hacc
  | none =>
      simp only [hl]
      intro v hv
      rcases List.mem_append.mp hv with hold | hnew
      · exact hacc v hold
      · rw [List.mem_singleton.mp hnew]
        exact mix_z_le _ _ _ M (clampQ_unit _).1 (clampQ_unit _).2
          (hcorner (edgeConnections e).1) (hcorner (edgeConnections e).2)

/-- Triangle emission never touches the vertex array. -/
theorem triFold_vertices (l : List (Fin 12 × Fin 12 × Fin 12)) (ev : Fin 12 → ℕ)
    (st : MCState) :
    (l.foldl (fun st tri => { st with indices := st.indices ++ [ev tri.1, ev tri.2.1, ev tri.2.2] })
        st).vertices = st.vertices := by
  induction l generalizing st with
  | nil => rfl
  | cons a l ih => rw [List.foldl_cons, ih]

/-- One cube of the extraction loop only appends vertices below
`max_z + voxel_size`. -/
theorem processCube_vertices_bound (g : DenseVoxelGrid) (iso max_z : ℚ) (st : MCState)
    (cube : IVec3) (hvs : 0 ≤ g.voxel_size)
    (hst : ∀ v ∈ st.vertices, v.z ≤ max_z + g.voxel_size) :
    ∀ v ∈ (processCube g iso max_z st cube).vertices, v.z ≤ max_z + g.voxel_size := by
  unfold processCube
  by_cases hz : (g.voxel_to_world cube).z > max_z
  · rw [if_pos hz]; exact hst
  · rw [if_neg hz]
    by_cases hci : cubeIndexOf (cubeVals g cube) iso = 0 ∨ cubeIndexOf (cubeVals g cube) iso = 255
    · rw [if_pos hci]; exact hst
    · rw [if_neg hci]
      have hcorner : ∀ i : Fin 8,
          (g.voxel_to_world (cube.add (cornerOffsets i))).z ≤ max_z + g.voxel_size := by
        intro i
        rw [corner_world_z]
        rw [cube_world_z] at hz
        have h1 : ((cornerOffsets i).z : ℚ) ≤ 1 := by
          exact_mod_cast (cornerOffsets_mem i).2.2.2
        have h2 : (0 : ℚ) ≤ ((cornerOffsets i).z : ℚ) := by
          exact_mod_cast (cornerOffsets_mem i).2.2.1
        push_neg at hz
        nlinarith
      unfold emitTriangles
      simp only
      rw [triFold_vertices]
      unfold edgeLoop
      exact foldl_invariant (fun acc : MCState × (Fin 12 → ℕ) => ∀ v ∈ acc.1.vertices,
          v.z ≤ max_z + g.voxel_size)
        _ _ _ hst
        (fun acc hacc e _ => by
          by_cases hflag : (edgeTable (cubeIndexOf (cubeVals g cube) iso)).testBit e.val
          · rw [if_pos hflag]
            exact edgeStep_vertices_bound g iso cube (cubeVals g cube) acc e _ hacc hcorner
          · rw [if_neg hflag]; exact hacc)

/-- Claim **C5.** The z-cutoff of `extract_surface` skips a cell exactly when the
cell's lowest corner exceeds `max_z` (the skip test reads corner 0, which is
the lowest corner for nonnegative voxel size), and every vertex of the
extracted mesh satisfies `z ≤ max_z + ε` with `ε = voxel_size`. -/
theorem zcutoff_skips_and_bounds_vertices (g : DenseVoxelGrid) (iso max_z : ℚ)
    (hvs : 0 ≤ g.voxel_size) :
    (∀ cube : IVec3, ((g.voxel_to_world cube).z > max_z ↔ lowestCornerZ g cube > max_z)) ∧
      ∀ v ∈ (extract_surface g iso max_z).vertices, v.z ≤ max_z + g.voxel_size := by
  constructor
  · intro cube
    rw [lowestCornerZ_eq g cube hvs]
  · have h := foldl_invariant
      (fun st : MCState => ∀ v ∈ st.vertices, v.z ≤ max_z + g.voxel_size)
      (processCube g iso max_z) (cubesList g.resolution) MCState.init
      (by intro v hv; exact absurd hv (List.not_mem_nil v))
      (fun st hst c _ => processCube_vertices_bound g iso max_z st c hvs hst)
    intro v hv
    exact h v hv

/-- Witness for C5 on a small grid with one inside corner and `max_z = 10`. -/
theorem zcutoff_skips_and_bounds_vertices_witness :
    0 ≤ (((mkDenseVoxelGrid 3 ⟨⟨0, 0, 0⟩, ⟨2, 2, 2⟩⟩).fill 1).set 1 1 1 (-1)).voxel_size ∧
      ∀ v ∈ (extract_surface (((mkDenseVoxelGrid 3 ⟨⟨0, 0, 0⟩, ⟨2, 2, 2⟩⟩).fill 1).set 1 1 1 (-1))
          0 10).vertices,
        v.z ≤ 10 + (((mkDenseVoxelGrid 3 ⟨⟨0, 0, 0⟩, ⟨2, 2, 2⟩⟩).fill 1).set 1 1 1 (-1)).voxel_size :=
  have h : 0 ≤ (((mkDenseVoxelGrid 3 ⟨⟨0, 0, 0⟩, ⟨2, 2, 2⟩⟩).fill 1).set 1 1 1 (-1)).voxel_size := by
    with_unfolding_all decide
  ⟨h, (zcutoff_skips_and_bounds_vertices _ 0 10 h).2⟩

/-- The far-out 64³ grid reads the sentinel everywhere before rasterization. -/
theorem grid64_get (x y z : ℤ) : grid64.get x y z = fltMax := by
  unfold grid64 mkDenseVoxelGrid DenseVoxelGrid.get
  split <;> rfl

/-- The sentinel is nonnegative. -/
theorem fltMax_nonneg : (0 : ℚ) ≤ fltMax := by norm_num [fltMax]

/-- Only the `"Outer wall"` segment of scenario B passes the feature filter. -/
theorem scenarioB_filter :
    [infillSegment, wallSegment].filter segmentContributes = [wallSegment] := by
  with_unfolding_all decide

/-- On scenario B the rasterized grid is the single-segment rasterization of
the wall segment. -/
theorem scenarioB_grid_eq :
    (generate_sdf grid64 [infillSegment, wallSegment] (21/100) (1/2)).grid =
      rasterizeSegment grid64 wallSegment (21/100) (1/2) := by
  rw [generate_sdf_grid_eq, scenarioB_filter]
  rfl

/-- Every voxel of the wall segment's influence box keeps a nonnegative value
(the segment sits half a voxel away from every lattice point, farther than
the 0.21 segment radius). -/
theorem scenarioB_box_nonneg :
    ∀ p ∈ boxList (segVoxelMin grid64 wallSegment (21/100 + 1/2 + grid64.voxel_size))
        (segVoxelMax grid64 wallSegment (21/100 + 1/2 + grid64.voxel_size)),
      0 ≤ (rasterizeSegment grid64 wallSegment (21/100) (1/2)).get p.x p.y p.z := by
  with_unfolding_all decide

/-- After scenario B's rasterization every in-bounds cell is nonnegative. -/
theorem scenarioB_all_nonneg :
    ∀ x y z : ℤ, (rasterizeSegment grid64 wallSegment (21/100) (1/2)).in_bounds x y z →
      0 ≤ (rasterizeSegment grid64 wallSegment (21/100) (1/2)).get x y z := by
  intro x y z _
  by_cases hp : (⟨x, y, z⟩ : IVec3) ∈
      boxList (segVoxelMin grid64 wallSegment (21/100 + 1/2 + grid64.voxel_size))
        (segVoxelMax grid64 wallSegment (21/100 + 1/2 + grid64.voxel_size))
  · exact scenarioB_box_nonneg _ hp
  · have h := rasterizeSegment_get grid64 wallSegment (21/100) (1/2) ⟨x, y, z⟩
    rw [if_neg hp] at h
    rw [h, grid64_get]
    exact fltMax_nonneg

/-- Scenario B's mesh is empty: no cell of the rasterized grid dips below the
iso-value 0. -/
theorem scenarioB_mesh_empty :
    extract_surface (generate_sdf grid64 [infillSegment, wallSegment] (21/100) (1/2)).grid 0
      fltMax = ⟨[], [], []⟩ := by
  rw [scenarioB_grid_eq]
  exact extract_surface_empty _ 0 fltMax scenarioB_all_nonneg

/-- The statistics record produced by `build` on scenario B. -/
theorem scenarioB_stats :
    (build scenarioBFile scenarioBOptions).2 = ⟨2, 0, 0, 1048576, 0⟩ := by
  have hopts : scenarioBOptions.validate =
      ⟨64, 1/2, true, 21/100, 0, GridType.Dense, fltMax⟩ := by
    unfold SDFOptions.validate scenarioBOptions
    simp only [SDFOptions.mk.injEq]
    refine ⟨by decide, ?_, trivial, ?_, trivial, trivial, trivial⟩
    · rw [min_eq_right (by norm_num), max_eq_right (by norm_num)]
    · rw [min_eq_right (by norm_num), max_eq_right (by norm_num)]
  have hsegs : scenarioBFile.layers.flatMap (fun l => l.segments) =
      [infillSegment, wallSegment] := rfl
  have hgrid : mkDenseVoxelGrid 64 scenarioBFile.global_bounding_box = grid64 := rfl
  have hmem : (rasterizeSegment grid64 wallSegment (21/100) (1/2)).memory_usage = 1048576 := by
    unfold DenseVoxelGrid.memory_usage
    rw [(rasterizeSegment_fields grid64 wallSegment (21/100) (1/2)).1]
    rfl
  simp only [build, hopts, hsegs, hgrid]
  rw [scenarioB_mesh_empty, scenarioB_grid_eq, hmem]
  rfl

/-- Counterexample to C8: On scenario B (one `"Internal infill"` and one
`"Outer wall"` extruding segment) the statistics record retrievable after
`build` carries only the five size statistics modelled here — it has no
filtered-segment or processed-segment fields at all — and none of the
recorded statistics equals 1, so `last_stats` does not report "exactly one
filtered segment and one processed segment" (those counters are only written
to the log by `generate_sdf`). -/
theorem stats_claim_counterexample :
    (build scenarioBFile scenarioBOptions).2.input_segments ≠ 1 ∧
      (build scenarioBFile scenarioBOptions).2.output_vertices ≠ 1 ∧
      (build scenarioBFile scenarioBOptions).2.output_triangles ≠ 1 ∧
      (build scenarioBFile scenarioBOptions).2.voxel_grid_bytes ≠ 1 ∧
      (build scenarioBFile scenarioBOptions).2.output_mesh_bytes ≠ 1 := by
  rw [scenarioB_stats]
  refine ⟨?_, ?_, ?_, ?_, ?_⟩ <;> norm_num

/-- Claim **C8 (amended).** On scenario B, `generate_sdf` (invoked by `build` with
exactly these arguments after validation) computes one processed and one
filtered segment in its logged counters, and the statistics record reports
the input segment count 2; the filtered/processed counts are not part of the
retrievable statistics record. -/
theorem stats_amended :
    (generate_sdf grid64 [infillSegment, wallSegment] (21/100) (1/2)).processed = 1 ∧
      (generate_sdf grid64 [infillSegment, wallSegment] (21/100) (1/2)).filtered = 1 ∧
      (build scenarioBFile scenarioBOptions).2.input_segments = 2 := by
  refine ⟨?_, ?_, ?_⟩
  · with_unfolding_all decide
  · with_unfolding_all decide
  · rw [scenarioB_stats]

/-- Componentwise minimum is symmetric. -/
theorem IVec3.cmin_comm (a b : IVec3) : a.cmin b = b.cmin a := by
  cases a; cases b; simp [IVec3.cmin, min_comm]

/-- Componentwise maximum is symmetric. -/
theorem IVec3.cmax_comm (a b : IVec3) : a.cmax b = b.cmax a := by
  cases a; cases b; simp [IVec3.cmax, max_comm]

/-- The canonical edge key ignores the order of the two corners. -/
theorem make_edge_key_symm (a b : IVec3) : make_edge_key a b = make_edge_key b a := by
  unfold make_edge_key
  rw [IVec3.cmin_comm, IVec3.cmax_comm]

/-- An association-list lookup fails exactly when the key is absent. -/
theorem lookup_none_iff {β : Type} (k : ℕ) (l : List (ℕ × β)) :
    l.lookup k = none ↔ k ∉ l.map Prod.fst := by
  induction l with
  | nil => simp [List.lookup]
  | cons a l ih =>
      obtain ⟨a1, a2⟩ := a
      by_cases hk : k = a1
      · subst hk
        simp [List.lookup]
      · have hbeq : (k == a1) = false := beq_eq_false_iff_ne.mpr hk
        simp [List.lookup, hbeq, ih, hk]

/-- Triangle emission never touches the welding cache. -/
theorem triFold_cache (l : List (Fin 12 × Fin 12 × Fin 12)) (ev : Fin 12 → ℕ)
    (st : MCState) :
    (l.foldl (fun st tri => { st with indices := st.indices ++ [ev tri.1, ev tri.2.1, ev tri.2.2] })
        st).cache = st.cache := by
  induction l generalizing st with
  | nil => rfl
  | cons a l ih => rw [List.foldl_cons, ih]

/-- An inactive cube leaves the extraction state unchanged. -/
theorem processCube_inactive (g : DenseVoxelGrid) (iso max_z : ℚ) (s : MCState) (c : IVec3)
    (h : cubeActive g iso max_z c = false) : processCube g iso max_z s c = s := by
  unfold processCube
  unfold cubeActive at h
  rcases Bool.and_eq_false_iff.mp h with h1 | h2
  · rw [if_pos (not_not.mp (of_decide_eq_false h1))]
  · by_cases hz : (g.voxel_to_world c).z > max_z
    · rw [if_pos hz]
    · rw [if_neg hz, if_pos (not_not.mp (of_decide_eq_false h2))]

/-- An active cube runs the edge loop and triangle emission. -/
theorem processCube_active (g : DenseVoxelGrid) (iso max_z : ℚ) (s : MCState) (c : IVec3)
    (h : cubeActive g iso max_z c = true) :
    processCube g iso max_z s c = emitTriangles g iso c s := by
  unfold processCube
  unfold cubeActive at h
  obtain ⟨h1, h2⟩ := Bool.and_eq_true_iff.mp h
  rw [if_neg (of_decide_eq_true h1), if_neg (of_decide_eq_true h2)]

/-- One crossed-edge step grows the cache by exactly the edge's canonical key
(a cache hit reuses the vertex, a miss emits one vertex and caches the key). -/
theorem edgeStep_inv (g : DenseVoxelGrid) (iso : ℚ) (cube : IVec3)
    (acc : MCState × (Fin 12 → ℕ)) (e : Fin 12) (K : Finset ℕ)
    (hinv : cacheInv acc.1 K) :
    cacheInv (edgeStep g iso cube (cubeVals g cube) acc e).1 (insert (pairKey cube e) K) := by
  obtain ⟨hlen, hnd, hset⟩ := hinv
  have hkey : pairKey cube e = make_edge_key (cube.add (cornerOffsets (edgeConnections e).1))
      (cube.add (cornerOffsets (edgeConnections e).2)) := rfl
  unfold edgeStep
  cases hl : acc.1.cache.lookup (make_edge_key (cube.add (cornerOffsets (edgeConnections e).1))
      (cube.add (cornerOffsets (edgeConnections e).2))) with
  | some vi =>
      simp only [hl]
      have hmem : pairKey cube e ∈ acc.1.cache.map Prod.fst := by
        rw [hkey]
        by_contra hnm
        have hln := (lookup_none_iff _ _).mpr hnm
        rw [hln] at hl
        exact Option.noConfusion hl
      refine ⟨hlen, hnd, ?_⟩
      have hmemK : pairKey cube e ∈ K := by
        rw [← hset]
        exact List.mem_toFinset.mpr hmem
      rw [hset]
      exact (Finset.insert_eq_self.mpr hmemK).symm
  | none =>
      simp only [hl]
      have hnm : pairKey cube e ∉ acc.1.cache.map Prod.fst := by
        rw [hkey]
        exact (lookup_none_iff _ _).mp hl
      refine ⟨?_, ?_, ?_⟩
      · simp [hlen]
      · simp only [List.map_cons]
        exact List.nodup_cons.mpr ⟨by rw [← hkey]; exact hnm, hnd⟩
      · simp only [List.map_cons, List.toFinset_cons, hset, hkey]

/-- The edge loop over any edge list extends the cached key set by exactly
the keys of its crossed edges. -/
theorem edgeLoop_fold_inv (g : DenseVoxelGrid) (iso : ℚ) (cube : IVec3) :
    ∀ (E : List (Fin 12)) (acc : MCState × (Fin 12 → ℕ)) (K : Finset ℕ),
      cacheInv acc.1 K →
      cacheInv
        ((E.foldl
            (fun acc e =>
              if (edgeTable (cubeIndexOf (cubeVals g cube) iso)).testBit e.val then
                edgeStep g iso cube (cubeVals g cube) acc e
              else acc)
            acc).1)
        (K ∪ ((E.filter fun e =>
            (edgeTable (cubeIndexOf (cubeVals g cube) iso)).testBit e.val).map
          (pairKey cube)).toFinset) := by
  intro E
  induction E with
  | nil => intro acc K h; simpa using h
  | cons e E ih =>
      intro acc K h
      rw [List.foldl_cons, List.filter_cons]
      by_cases hflag : (edgeTable (cubeIndexOf (cubeVals g cube) iso)).testBit e.val
      · rw [if_pos hflag]
        simp only [hflag, if_pos, List.map_cons, List.toFinset_cons]
        have h' := edgeStep_inv g iso cube acc e K h
        have := ih (edgeStep g iso cube (cubeVals g cube) acc e) (insert (pairKey cube e) K) h'
        rw [show insert (pairKey cube e) K ∪
            ((E.filter fun e => (edgeTable (cubeIndexOf (cubeVals g cube) iso)).testBit e.val).map
              (pairKey cube)).toFinset =
            K ∪ insert (pairKey cube e)
              ((E.filter fun e =>
                  (edgeTable (cubeIndexOf (cubeVals g cube) iso)).testBit e.val).map
                (pairKey cube)).toFinset from by
          rw [Finset.insert_union, Finset.union_insert]] at this
        exact this
      · rw [if_neg hflag]
        simp only [hflag]
        rw [if_neg (by simp [hflag])]
        exact ih acc K h

/-- Over the whole cube iteration the cached key set grows by exactly the
keys of all crossed edges of the processed cubes. -/
theorem extract_fold_inv (g : DenseVoxelGrid) (iso max_z : ℚ) :
    ∀ (L : List IVec3) (s : MCState) (K : Finset ℕ),
      cacheInv s K →
      cacheInv (L.foldl (processCube g iso max_z) s)
        (K ∪ ((L.filter (cubeActive g iso max_z)).flatMap fun c =>
          (crossedEdges (cubeIndexOf (cubeVals g c) iso)).map (pairKey c)).toFinset) := by
  intro L
  induction L with
  | nil => intro s K h; simpa using h
  | cons c L ih =>
      intro s K h
      rw [List.foldl_cons, List.filter_cons]
      by_cases hact : cubeActive g iso max_z c = true
      · rw [if_pos hact, processCube_active g iso max_z s c hact]
        have hinv2 : cacheInv (emitTriangles g iso c s)
            (K ∪ ((crossedEdges (cubeIndexOf (cubeVals g c) iso)).map (pairKey c)).toFinset) := by
          have hedge := edgeLoop_fold_inv g iso c (List.finRange 12) (s, fun _ => 0) K h
          obtain ⟨h1, h2, h3⟩ := hedge
          unfold emitTriangles
          refine ⟨?_, ?_, ?_⟩
          · rw [triFold_vertices, triFold_cache]
            exact h1
          · rw [triFold_cache]
            exact h2
          · rw [triFold_cache]
            exact h3
        have hres := ih (emitTriangles g iso c s)
          (K ∪ ((crossedEdges (cubeIndexOf (cubeVals g c) iso)).map (pairKey c)).toFinset) hinv2
        rw [List.flatMap_cons, List.toFinset_append, ← Finset.union_assoc]
        exact hres
      · rw [if_neg hact,
          processCube_inactive g iso max_z s c (Bool.not_eq_true _ ▸ hact)]
        exact ih s K h

/-- The number of emitted vertices equals the number of distinct canonical
edge keys over all crossed edges of the processed cubes. -/
theorem vertices_length_eq (g : DenseVoxelGrid) (iso max_z : ℚ) :
    (extract_surface g iso max_z).vertices.length =
      ((crossedPairs g iso max_z).map fun p => pairKey p.1 p.2).toFinset.card := by
  have h0 : cacheInv MCState.init ∅ := ⟨rfl, List.nodup_nil, rfl⟩
  have h := extract_fold_inv g iso max_z (cubesList g.resolution) MCState.init ∅ h0
  obtain ⟨h1, h2, h3⟩ := h
  have hkeys : ((crossedPairs g iso max_z).map fun p => pairKey p.1 p.2) =
      ((cubesList g.resolution).filter (cubeActive g iso max_z)).flatMap fun c =>
        (crossedEdges (cubeIndexOf (cubeVals g c) iso)).map (pairKey c) := by
    unfold crossedPairs activeCubes
    rw [List.map_flatMap]
    congr 1
    funext c
    rw [List.map_map]
    rfl
  show ((cubesList g.resolution).foldl (processCube g iso max_z) MCState.init).vertices.length = _
  rw [h1, hkeys, ← List.length_map _ Prod.fst, ← List.toFinset_card_of_nodup h2, h3]
  simp

/-- Each cube contributes at most 12 crossed edges. -/
theorem crossedPairs_length_le (g : DenseVoxelGrid) (iso max_z : ℚ) :
    (crossedPairs g iso max_z).length ≤ 12 * (activeCubes g iso max_z).length := by
  unfold crossedPairs
  have : ∀ l : List IVec3,
      (l.flatMap fun c =>
        (crossedEdges (cubeIndexOf (cubeVals g c) iso)).map fun e => (c, e)).length ≤
        12 * l.length := by
    intro l
    induction l with
    | nil => simp
    | cons c l ih =>
        rw [List.flatMap_cons, List.length_append, List.length_cons]
        have hc : ((crossedEdges (cubeIndexOf (cubeVals g c) iso)).map
            fun e => (c, e)).length ≤ 12 := by
          rw [List.length_map]
          unfold crossedEdges
          calc ((List.finRange 12).filter _).length ≤ (List.finRange 12).length :=
                List.length_filter_le _ _
            _ = 12 := by simp
        omega
  exact this _

/-- A list with a duplicate has strictly fewer distinct elements than
entries. -/
theorem toFinset_card_lt_of_not_nodup (l : List ℕ) (hdup : ¬ l.Nodup) :
    l.toFinset.card < l.length := by
  rw [List.card_toFinset]
  have hle := (List.dedup_sublist l).length_le
  rcases eq_or_lt_of_le hle with heq | hlt
  · exact absurd (((List.dedup_sublist l).eq_of_length heq) ▸ List.nodup_dedup l) hdup
  · exact hlt

/-- Claim **C2.** The canonical edge key of `extract_surface` depends only on the
edge's two global corner coordinates (in either order), never on the owning
cube, so any two cells sharing a crossed edge compute the same key; and
whenever two distinct (cube, crossed-edge) pairs among the processed cubes
share a key, the number of distinct emitted vertices is strictly less than
12 times the number of cubes with a surface crossing. -/
theorem edge_welding (g : DenseVoxelGrid) (iso max_z : ℚ)
    (hshare : ∃ p₁ ∈ crossedPairs g iso max_z, ∃ p₂ ∈ crossedPairs g iso max_z,
        p₁ ≠ p₂ ∧ pairKey p₁.1 p₁.2 = pairKey p₂.1 p₂.2) :
    (∀ (c₁ c₂ : IVec3) (e₁ e₂ : Fin 12),
        edgeCorners c₁ e₁ = edgeCorners c₂ e₂ ∨
          edgeCorners c₁ e₁ = ((edgeCorners c₂ e₂).2, (edgeCorners c₂ e₂).1) →
        pairKey c₁ e₁ = pairKey c₂ e₂) ∧
      (extract_surface g iso max_z).vertices.length <
        12 * (activeCubes g iso max_z).length := by
  constructor
  · intro c₁ c₂ e₁ e₂ hcorners
    unfold pairKey
    rcases hcorners with heq | hswap
    · rw [heq]
    · rw [hswap]
      exact make_edge_key_symm _ _
  · obtain ⟨p₁, hp₁, p₂, hp₂, hne, hkey⟩ := hshare
    have hdup : ¬ ((crossedPairs g iso max_z).map fun p => pairKey p.1 p.2).Nodup := by
      intro hnd
      exact hne (List.inj_on_of_nodup_map hnd hp₁ hp₂ hkey)
    calc (extract_surface g iso max_z).vertices.length =
        ((crossedPairs g iso max_z).map fun p => pairKey p.1 p.2).toFinset.card :=
          vertices_length_eq g iso max_z
      _ < ((crossedPairs g iso max_z).map fun p => pairKey p.1 p.2).length :=
          toFinset_card_lt_of_not_nodup _ hdup
      _ = (crossedPairs g iso max_z).length := List.length_map _ _
      _ ≤ 12 * (activeCubes g iso max_z).length := crossedPairs_length_le g iso max_z

/-- Witness for C2 on the 3³ blob grid: the cubes `(0,0,0)` (edge 10) and
`(1,0,0)` (edge 11) share the crossed edge between corners `(1,1,0)` and
`(1,1,1)`. -/
theorem edge_welding_witness :
    (∃ p₁ ∈ crossedPairs blobGrid 0 fltMax, ∃ p₂ ∈ crossedPairs blobGrid 0 fltMax,
        p₁ ≠ p₂ ∧ pairKey p₁.1 p₁.2 = pairKey p₂.1 p₂.2) ∧
      (extract_surface blobGrid 0 fltMax).vertices.length <
        12 * (activeCubes blobGrid 0 fltMax).length :=
  have h : ∃ p₁ ∈ crossedPairs blobGrid 0 fltMax, ∃ p₂ ∈ crossedPairs blobGrid 0 fltMax,
      p₁ ≠ p₂ ∧ pairKey p₁.1 p₁.2 = pairKey p₂.1 p₂.2 := by
    with_unfolding_all decide
  ⟨h, (edge_welding blobGrid 0 fltMax h).2⟩

end Gcode
